import Mathlib

/-!
# Verification of the subdomain-storage-sync core

A shallow embedding of the cross-subdomain storage sync middleware
(`subdomain-storage-sync`, version 2.0.0).  The JavaScript source is an
IIFE exposing `window.StorageSync`; its core pieces are embedded here as
executable Lean definitions:

* the cookie codec (`sanitizeKey`, `sanitizeValue`, `writeToCookie`,
  `readFromCookie`, `deleteFromCookie`, `getAllSyncCookies`), with the
  browser cookie jar modelled as an association list of
  (cookie name, percent-encoded value) pairs rendered to the
  `document.cookie` string exactly as a single-domain jar renders it;
* the platform primitives the codec relies on (`encodeURIComponent`,
  `decodeURIComponent`, `String.prototype.trim`, `String.prototype.split`)
  modelled as character-list functions;
* the key matcher (`shouldSync`), configuration validation
  (`validateConfig`), the domain resolver (`getParentDomain`);
* the replay pass (`syncCookiesToStorage`) over explicit storage state;
* the cross-tab storage listener, the same-tab `clear` interception, the
  `setItem` interception-installation discipline, and the one-shot
  readiness promise, each as explicit state-passing models.

JavaScript strings are modelled as Lean `String`s (sequences of Unicode
scalar values); dynamic-typing aspects (`typeof` checks on non-string
inputs) are outside the typed embedding and noted where they occur.
-/

namespace StorageSync

/-! ## Characters: JS whitespace, the sanitization class, URI characters -/

/-- The characters matched by the JavaScript regular-expression class `\s`
(the WhiteSpace and LineTerminator productions). -/
def jsWhitespaceChars : List Char :=
  [' ', '\t', '\n', '\u000B', '\u000C', '\r', '\u00A0', '\u1680',
   '\u2000', '\u2001', '\u2002', '\u2003', '\u2004', '\u2005', '\u2006',
   '\u2007', '\u2008', '\u2009', '\u200A', '\u2028', '\u2029', '\u202F',
   '\u205F', '\u3000', '\uFEFF']

/-- `c` matches the JS `\s` class. -/
def isJsSpace (c : Char) : Bool := decide (c ∈ jsWhitespaceChars)

/-- `c` matches the class `[;,\s=]` removed by `sanitizeKey`. -/
def isForbiddenKeyChar (c : Char) : Bool :=
  c == ';' || c == ',' || c == '=' || isJsSpace c

/-- Characters left unescaped by `encodeURIComponent`:
`A-Z a-z 0-9 - _ . ! ~ * ' ( )`. -/
def isUriUnreserved (c : Char) : Bool :=
  c.isAlpha || c.isDigit || c == '-' || c == '_' || c == '.' ||
  c == '!' || c == '~' || c == '*' || c == Char.ofNat 39 ||
  c == '(' || c == ')'

/-! ## encodeURIComponent / decodeURIComponent

The platform pair used by the cookie codec, modelled on character lists:
`encodeURIComponent` percent-encodes the UTF-8 bytes of every character
outside the unreserved set; `decodeURIComponent` lexes `%XX` escapes into
bytes and then UTF-8-decodes maximal byte runs, failing (JS: `URIError`,
modelled as `none`) on malformed escapes, stray or missing continuation
bytes, overlong encodings, surrogates, or out-of-range code points. -/

/-- Uppercase hexadecimal digit for `n < 16` (as emitted by a browser's
percent-encoder). -/
def hexDigitChar (n : Nat) : Char :=
  if n < 10 then Char.ofNat (48 + n) else Char.ofNat (65 + n - 10)

/-- The UTF-8 bytes of the code point `n`. -/
def utf8Bytes (n : Nat) : List Nat :=
  if n < 0x80 then [n]
  else if n < 0x800 then [0xC0 + n / 64, 0x80 + n % 64]
  else if n < 0x10000 then [0xE0 + n / 4096, 0x80 + n / 64 % 64, 0x80 + n % 64]
  else [0xF0 + n / 262144, 0x80 + n / 4096 % 64, 0x80 + n / 64 % 64, 0x80 + n % 64]

/-- `%XX` escape of the byte `b`. -/
def pctByte (b : Nat) : List Char :=
  ['%', hexDigitChar (b / 16), hexDigitChar (b % 16)]

/-- One character of `encodeURIComponent` output. -/
def encodeChar (c : Char) : List Char :=
  if isUriUnreserved c then [c] else ((utf8Bytes c.toNat).map pctByte).flatten

/-- `encodeURIComponent` on a character list. -/
def encodeURIComponentChars (l : List Char) : List Char :=
  (l.map encodeChar).flatten

/-- `encodeURIComponent`. -/
def encodeURIComponent (s : String) : String :=
  String.mk (encodeURIComponentChars s.data)

/-- Value of a hexadecimal digit (both cases accepted, as in JS). -/
def hexVal (c : Char) : Option Nat :=
  if '0' ≤ c ∧ c ≤ '9' then some (c.toNat - 48)
  else if 'A' ≤ c ∧ c ≤ 'F' then some (c.toNat - 65 + 10)
  else if 'a' ≤ c ∧ c ≤ 'f' then some (c.toNat - 97 + 10)
  else none

/-- A token of the percent-decoder: either a literal character or a byte
produced from a `%XX` escape. -/
inductive PctTok where
  | raw (c : Char)
  | byte (b : Nat)
deriving DecidableEq

/-- First phase of `decodeURIComponent`: turn `%XX` escapes into bytes,
leave other characters untouched; fail on a malformed escape. -/
def pctLex : List Char → Option (List PctTok)
  | [] => some []
  | c :: rest =>
    if c = '%' then
      match rest with
      | h1 :: h2 :: rest2 =>
        match hexVal h1, hexVal h2 with
        | some a, some b => (pctLex rest2).map (PctTok.byte (16 * a + b) :: ·)
        | _, _ => none
      | _ => none
    else (pctLex rest).map (PctTok.raw c :: ·)

/-- `b` is a UTF-8 continuation byte. -/
def isContByte (b : Nat) : Bool := 0x80 ≤ b && b < 0xC0

/-- Read one continuation byte: it must be a byte token (raw characters
never continue a sequence) in the continuation range; the payload (the low
six bits) and the remaining tokens are returned. -/
def readCont : List PctTok → Option (Nat × List PctTok)
  | PctTok.byte b :: rest => if isContByte b then some (b - 0x80, rest) else none
  | _ => none

/-- Decode one multi-byte (or single-byte) UTF-8 sequence headed by the
byte `b`; `dec` decodes the remaining tokens. -/
def utf8DecodeByte (dec : List PctTok → Option (List Char)) (b : Nat)
    (rest : List PctTok) : Option (List Char) :=
  if b < 0x80 then (dec rest).map (Char.ofNat b :: ·)
  else if b < 0xC0 then none
  else if b < 0xE0 then
    (readCont rest).bind fun p1 =>
      let cp := (b - 0xC0) * 64 + p1.1
      if 0x80 ≤ cp then (dec p1.2).map (Char.ofNat cp :: ·)
      else none
  else if b < 0xF0 then
    (readCont rest).bind fun p1 => (readCont p1.2).bind fun p2 =>
      let cp := (b - 0xE0) * 4096 + p1.1 * 64 + p2.1
      if 0x800 ≤ cp ∧ (cp < 0xD800 ∨ 0xDFFF < cp) then
        (dec p2.2).map (Char.ofNat cp :: ·)
      else none
  else if b < 0xF8 then
    (readCont rest).bind fun p1 => (readCont p1.2).bind fun p2 =>
      (readCont p2.2).bind fun p3 =>
        let cp := (b - 0xF0) * 262144 + p1.1 * 4096 + p2.1 * 64 + p3.1
        if 0x10000 ≤ cp ∧ cp < 0x110000 then
          (dec p3.2).map (Char.ofNat cp :: ·)
        else none
  else none

/-- Second phase of `decodeURIComponent`: UTF-8-decode the byte tokens.
Overlong encodings, surrogate code points and values above `0x10FFFF` are
rejected — as in the ECMAScript `Decode` algorithm.  The fuel argument
(one unit per decoded character; `utf8DecodeToks` supplies the token
count, which always suffices) only makes the recursion structural. -/
def utf8DecodeToksF : Nat → List PctTok → Option (List Char)
  | _, [] => some []
  | 0, _ :: _ => none
  | fuel + 1, PctTok.raw c :: rest => (utf8DecodeToksF fuel rest).map (c :: ·)
  | fuel + 1, PctTok.byte b :: rest => utf8DecodeByte (utf8DecodeToksF fuel) b rest

/-- UTF-8-decode a token list. -/
def utf8DecodeToks (toks : List PctTok) : Option (List Char) :=
  utf8DecodeToksF toks.length toks

/-- `decodeURIComponent` on a character list; `none` models `URIError`. -/
def percentDecode (l : List Char) : Option (List Char) :=
  (pctLex l).bind utf8DecodeToks

/-- `decodeURIComponent`. -/
def decodeURIComponent (s : String) : Option String :=
  (percentDecode s.data).map String.mk

/-! ## String primitives used by the codec: `trim`, `split`, `indexOf` -/

/-- `String.prototype.trim`: strip JS whitespace from both ends (on
character lists). -/
def trimChars (l : List Char) : List Char :=
  ((l.dropWhile isJsSpace).reverse.dropWhile isJsSpace).reverse

/-- `String.prototype.split(sep)` for a one-character separator: `n`
separators yield `n + 1` (possibly empty) segments. -/
def splitOnChar (sep : Char) : List Char → List (List Char)
  | [] => [[]]
  | c :: rest =>
    match splitOnChar sep rest with
    | [] => [[]]
    | s :: ss => if c = sep then [] :: s :: ss else (c :: s) :: ss

/-- Split a segment at its first `=` (the `indexOf("=")` /
`substring` steps of the cookie parsers); `none` when no `=` occurs. -/
def splitEq : List Char → Option (List Char × List Char)
  | [] => none
  | c :: rest =>
    if c = '=' then some ([], rest)
    else (splitEq rest).map (fun p => (c :: p.1, p.2))

/-! ## The cookie jar

`document.cookie` is modelled as an association list of
(cookie name, stored value) pairs for the single parent domain and path
the middleware uses.  Reading `document.cookie` renders the jar as
`"n1=v1; n2=v2; …"`; assigning a cookie string with a positive `max-age`
upserts the named cookie in place, and `max-age=0` (as used by
`deleteFromCookie`) removes it. -/

/-- The browser cookie jar. -/
abbrev Jar := List (String × String)

/-- Rendering of the jar behind a `document.cookie` read. -/
def docCookieChars : Jar → List Char
  | [] => []
  | [(n, v)] => n.data ++ '=' :: v.data
  | (n, v) :: e :: rest => n.data ++ '=' :: v.data ++ ';' :: ' ' :: docCookieChars (e :: rest)

/-- Upsert a cookie: replace the value of an existing cookie of that name
in place, or append a new cookie. -/
def setCookieEntry : Jar → String → String → Jar
  | [], n, v => [(n, v)]
  | (n', v') :: rest, n, v =>
    if n' = n then (n, v) :: rest else (n', v') :: setCookieEntry rest n v

/-- Remove every cookie of the given name (the effect of assigning it with
`max-age=0`). -/
def removeCookieEntry (jar : Jar) (name : String) : Jar :=
  jar.filter (fun e => e.1 != name)

/-- Effect on the jar of assigning
`name=value; max-age=maxAge; domain=…; path=/; SameSite=Lax` to
`document.cookie`. -/
def docCookieSet (jar : Jar) (name value : String) (maxAge : Int) : Jar :=
  if maxAge ≤ 0 then removeCookieEntry jar name else setCookieEntry jar name value

/-! ## Configuration and key matching -/

/-- A sync-key rule: an exact string, or a `RegExp` modelled by its
(boolean) test against a key. -/
inductive SyncKeyRule where
  | exact (s : String)
  | pattern (test : String → Bool)

/-- Whether a rule matches a key (the body of the `some` callback in
`shouldSync`): a string rule by `===`, a pattern rule by `.test(key)`. -/
def ruleMatches (key : String) : SyncKeyRule → Bool
  | SyncKeyRule.exact s => s == key
  | SyncKeyRule.pattern t => t key

/-- The `CONFIG` record.  `storageType` is kept as a string, as in the
source, since `validateConfig` must see invalid values. -/
structure Config where
  cookiePrefix : String
  cookieMaxAge : Int
  syncKeys : List SyncKeyRule
  overwriteExisting : Bool
  storageType : String
  debug : Bool

/-- The default configuration built at module load. -/
def defaultConfig : Config :=
  { cookiePrefix := "sds_sync_"
    cookieMaxAge := 365 * 24 * 60 * 60
    syncKeys := []
    overwriteExisting := false
    storageType := "localStorage"
    debug := false }

/-- `validateConfig()`: inspect each field, repair invalid values in
place, and return whether every field was already valid.  The `typeof`
checks on `overwriteExisting` and `debug` are vacuous in the typed
embedding (a Lean `Bool` is always a boolean) and the `typeof`/`RegExp`
element checks in `syncKeys` reduce to the empty-string filter. -/
def validateConfig (c : Config) : Config × Bool :=
  let (c, v1) :=
    if ¬ (["localStorage", "sessionStorage", "both"].contains c.storageType) then
      ({ c with storageType := "localStorage" }, false)
    else (c, true)
  let (c, v2) :=
    if c.cookiePrefix.length = 0 then ({ c with cookiePrefix := "ls_sync_" }, false)
    else (c, true)
  let (c, v3) :=
    if c.cookieMaxAge ≤ 0 then ({ c with cookieMaxAge := 365 * 24 * 60 * 60 }, false)
    else (c, true)
  let c :=
    { c with syncKeys := c.syncKeys.filter fun r =>
        match r with
        | SyncKeyRule.exact s => s.length != 0
        | SyncKeyRule.pattern _ => true }
  (c, v1 && v2 && v3)

/-- `shouldSync(key)`: a falsy (empty) key never syncs; an empty rule list
syncs everything; otherwise any-match over the rules. -/
def shouldSync (cfg : Config) (key : String) : Bool :=
  if key = "" then false
  else if cfg.syncKeys.isEmpty then true
  else cfg.syncKeys.any (ruleMatches key)

/-! ## The cookie codec -/

/-- `sanitizeKey`: reject empty or over-long (> 200) keys, replace the
characters `[;,\s=]` by `_`.  (The `typeof key !== "string"` rejection is
outside the typed embedding.) -/
def sanitizeKey (key : String) : Option String :=
  if key.length = 0 then none
  else if 200 < key.length then none
  else some (String.mk (key.data.map fun c => if isForbiddenKeyChar c then '_' else c))

/-- `sanitizeValue`: reject values longer than 3500 characters.  (The
null/undefined-to-`""` coercion and stringification are outside the typed
embedding.) -/
def sanitizeValue (value : String) : Option String :=
  if 3500 < value.length then none else some value

/-- `writeToCookie(key, value)`: sanitize both, percent-encode the value
and assign the cookie string; returns the success flag and the updated
jar. -/
def writeToCookie (cfg : Config) (jar : Jar) (key value : String) : Bool × Jar :=
  match sanitizeKey key with
  | none => (false, jar)
  | some sanitizedKey =>
    match sanitizeValue value with
    | none => (false, jar)
    | some sanitizedValue =>
      let cookieName := cfg.cookiePrefix ++ sanitizedKey
      let encodedValue := encodeURIComponent sanitizedValue
      (true, docCookieSet jar cookieName encodedValue cfg.cookieMaxAge)

/-- `deleteFromCookie(key)`: assign the cookie with `max-age=0`. -/
def deleteFromCookie (cfg : Config) (jar : Jar) (key : String) : Bool × Jar :=
  match sanitizeKey key with
  | none => (false, jar)
  | some sanitizedKey =>
    (true, docCookieSet jar (cfg.cookiePrefix ++ sanitizedKey) "" 0)

/-- The scan loop of `readFromCookie`: trim each `;`-segment, split at the
first `=` (skipping segments without one), and on the first name match
return the decoded value — `none` if decoding fails. -/
def scanSegments (target : List Char) : List (List Char) → Option String
  | [] => none
  | seg :: rest =>
    match splitEq (trimChars seg) with
    | none => scanSegments target rest
    | some (n, v) =>
      if n = target then (percentDecode v).map String.mk
      else scanSegments target rest

/-- `readFromCookie(key)`: sanitize the key, scan `document.cookie` for
`prefix + sanitizedKey`; `null` (here `none`) when the key is invalid, the
cookie is absent, or its value fails to decode. -/
def readFromCookie (cfg : Config) (jar : Jar) (key : String) : Option String :=
  match sanitizeKey key with
  | none => none
  | some sanitizedKey =>
    let cookieName := cfg.cookiePrefix ++ sanitizedKey
    let doc := docCookieChars jar
    if doc = [] then none
    else scanSegments cookieName.data (splitOnChar ';' doc)

/-- JS-object insertion (`syncData[key] = value`): an existing key keeps
its position and gets the new value, a new key is appended. -/
def objSet (m : List (String × String)) (k v : String) : List (String × String) :=
  if m.any (fun e => e.1 == k) then
    m.map (fun e => if e.1 == k then (k, v) else e)
  else m ++ [(k, v)]

/-- The enumeration loop of `getAllSyncCookies`: keep segments whose
(nonempty) name starts with the prefix, strip the prefix and decode the
value.  A decode failure throws in the source; the surrounding
`try`/`catch` then returns the map accumulated so far. -/
def collectSyncCookies (cfg : Config) : List (List Char) →
    List (String × String) → List (String × String)
  | [], acc => acc
  | seg :: rest, acc =>
    match splitEq (trimChars seg) with
    | none => collectSyncCookies cfg rest acc
    | some (n, v) =>
      if n ≠ [] ∧ cfg.cookiePrefix.data.isPrefixOf n then
        match percentDecode v with
        | none => acc
        | some dv =>
          collectSyncCookies cfg rest
            (objSet acc (String.mk (n.drop cfg.cookiePrefix.data.length)) (String.mk dv))
      else collectSyncCookies cfg rest acc

/-- `getAllSyncCookies()`: the prefixed-cookie snapshot as a key→value
map (association list in insertion order). -/
def getAllSyncCookies (cfg : Config) (jar : Jar) : List (String × String) :=
  collectSyncCookies cfg (splitOnChar ';' (docCookieChars jar)) []

/-! ## Storage backends -/

/-- The two Web Storage areas. -/
inductive StorageId where
  | localId
  | sessionId
deriving DecidableEq

/-- One storage area: an ordered key→value map with JS-object insertion
semantics. -/
abbrev Store := List (String × String)

/-- `storage.getItem(key)` (`null` for a missing key). -/
def storeGetItem (s : Store) (k : String) : Option String :=
  (s.find? (fun e => e.1 == k)).map (fun e => e.2)

/-- The native `Storage.prototype.setItem` on the explicit store. -/
def storeSetItem (s : Store) (k v : String) : Store := objSet s k v

/-- The state of both storage areas. -/
structure Storages where
  localStore : Store
  sessionStore : Store
deriving DecidableEq

/-- Select one backend. -/
def Storages.get (st : Storages) : StorageId → Store
  | StorageId.localId => st.localStore
  | StorageId.sessionId => st.sessionStore

/-- Replace one backend. -/
def Storages.set (st : Storages) : StorageId → Store → Storages
  | StorageId.localId, s => { st with localStore := s }
  | StorageId.sessionId, s => { st with sessionStore := s }

/-- `getStorageObjects()`: which backends the configuration targets. -/
def getStorageObjects (cfg : Config) : List StorageId :=
  (if cfg.storageType = "localStorage" ∨ cfg.storageType = "both" then
    [StorageId.localId] else []) ++
  (if cfg.storageType = "sessionStorage" ∨ cfg.storageType = "both" then
    [StorageId.sessionId] else [])

/-- `getStorageName(storage)`. -/
def getStorageName : StorageId → String
  | StorageId.localId => "localStorage"
  | StorageId.sessionId => "sessionStorage"

/-- `shouldSyncStorage(storage)` from `setupLocalChangeDetection` (the
cross-tab listener inlines the same test). -/
def shouldSyncStorage (cfg : Config) : StorageId → Bool
  | StorageId.localId =>
    cfg.storageType == "localStorage" || cfg.storageType == "both"
  | StorageId.sessionId =>
    cfg.storageType == "sessionStorage" || cfg.storageType == "both"

/-! ## The replay pass (`syncCookiesToStorage`) -/

/-- One element of `syncedKeys` in the completion report. -/
structure SyncedRecord where
  key : String
  storageType : String
  overwritten : Bool
deriving DecidableEq

/-- One element of `skippedKeys` in the completion report. -/
structure SkippedRecord where
  key : String
  storageType : String
  reason : String
deriving DecidableEq

/-- The payload of the `storagesynccomplete` event. -/
structure SyncReport where
  syncedCount : Nat
  syncedKeys : List SyncedRecord
  skippedKeys : List SkippedRecord
  totalCookies : Nat
deriving DecidableEq

/-- Per-backend loop state of the replay pass. -/
structure PassState where
  store : Store
  syncCount : Nat
  syncedKeys : List SyncedRecord
  skippedKeys : List SkippedRecord

/-- The body of the inner `for … of Object.entries(syncData)` loop: skip
keys the matcher rejects; write iff (`overwriteExisting` or the key is
absent) and the value is truthy (non-empty), using the original
unintercepted `setItem`; record the write, or the deliberate skip when an
existing value is kept. -/
def syncEntry (cfg : Config) (storageName : String) (st : PassState)
    (entry : String × String) : PassState :=
  let key := entry.1
  let value := entry.2
  if shouldSync cfg key then
    let existingValue := storeGetItem st.store key
    let shouldWrite := cfg.overwriteExisting || existingValue.isNone
    if shouldWrite && value != "" then
      { store := storeSetItem st.store key value
        syncCount := st.syncCount + 1
        syncedKeys := st.syncedKeys ++
          [{ key := key, storageType := storageName, overwritten := existingValue.isSome }]
        skippedKeys := st.skippedKeys }
    else if existingValue.isSome && !cfg.overwriteExisting then
      { st with skippedKeys := st.skippedKeys ++
          [{ key := key, storageType := storageName, reason := "exists" }] }
    else st
  else st

/-- Cross-backend loop state of the replay pass. -/
structure GlobalPass where
  stores : Storages
  totalSyncCount : Nat
  syncedKeys : List SyncedRecord
  skippedKeys : List SkippedRecord

/-- One iteration of the outer `for … of storages` loop. -/
def runBackend (cfg : Config) (syncData : List (String × String))
    (g : GlobalPass) (sid : StorageId) : GlobalPass :=
  let storageName := getStorageName sid
  let fin := syncData.foldl (syncEntry cfg storageName)
    { store := g.stores.get sid
      syncCount := 0
      syncedKeys := g.syncedKeys
      skippedKeys := g.skippedKeys }
  { stores := g.stores.set sid fin.store
    totalSyncCount := g.totalSyncCount + fin.syncCount
    syncedKeys := fin.syncedKeys
    skippedKeys := fin.skippedKeys }

/-- `syncCookiesToStorage()`: snapshot the prefixed cookies, replay them
into every configured backend, and build the completion report that the
`storagesynccomplete` event carries. -/
def syncCookiesToStorage (cfg : Config) (jar : Jar) (st : Storages) :
    Storages × SyncReport :=
  let syncData := getAllSyncCookies cfg jar
  let gf := (getStorageObjects cfg).foldl (runBackend cfg syncData)
    { stores := st, totalSyncCount := 0, syncedKeys := [], skippedKeys := [] }
  (gf.stores,
   { syncedCount := gf.totalSyncCount
     syncedKeys := gf.syncedKeys
     skippedKeys := gf.skippedKeys
     totalCookies := syncData.length })

/-! ## Change interceptors -/

/-- The payload of a cross-tab `storage` event. -/
structure StorageEvent where
  key : Option String
  oldValue : Option String
  newValue : Option String
  storageArea : StorageId

/-- The cross-tab `storage` listener of `setupStorageListener`, as its
effect on the cookie jar.  A null key (a full `clear()` in another tab) is
deliberately not propagated to cookie deletion. -/
def handleStorageEvent (cfg : Config) (jar : Jar) (evt : StorageEvent) : Jar :=
  if !shouldSyncStorage cfg evt.storageArea then jar
  else
    match evt.key with
    | some k =>
      if k ≠ "" ∧ shouldSync cfg k then
        match evt.newValue with
        | none => (deleteFromCookie cfg jar k).2
        | some v => (writeToCookie cfg jar k v).2
      else jar
    | none => jar

/-- The wrapped `Storage.prototype.clear`: snapshot the keys, clear the
backend natively, then delete the cookie of every key the matcher accepts
(only for in-scope backends). -/
def storageClear (cfg : Config) (st : Storages) (jar : Jar) (sid : StorageId) :
    Storages × Jar :=
  if shouldSyncStorage cfg sid then
    let keys := (st.get sid).map (fun e => e.1)
    let st2 := st.set sid []
    let jar2 := keys.foldl
      (fun j k => if shouldSync cfg k then (deleteFromCookie cfg j k).2 else j) jar
    (st2, jar2)
  else (st.set sid [], jar)

/-! ## Interception installation (`setItem` wrapping)

`Storage.prototype.setItem` is a mutable function slot.  The module
captures the native primitive once at load time
(`const originalSetItem = Storage.prototype.setItem`), and every
(re)initialization installs a wrapper that delegates to that captured
primitive — never to the previously installed slot value.  Function values
that can occupy the slot are modelled syntactically. -/

/-- A function value that can sit in the `Storage.prototype.setItem`
slot. -/
inductive SetItemFun where
  | primitive
  | wrapper (inner : SetItemFun)
deriving DecidableEq

/-- The assignment performed by `setupLocalChangeDetection`:
`Storage.prototype.setItem = function … { originalSetItem.call(…); … }`.
`orig` is the reference the wrapper closes over — in the source, the
module-load capture of the primitive. -/
def installInterception (orig : SetItemFun) (_slot : SetItemFun) : SetItemFun :=
  SetItemFun.wrapper orig

/-- Run a `storage.setItem(key, value)` call against the current slot
value: the primitive writes the store; a wrapper first delegates to its
captured function, then mirrors the write into the cookie jar when the
backend is in scope and the key matches.  The returned `Nat` counts
`writeToCookie` calls. -/
def execSetItem (cfg : Config) : SetItemFun → StorageId → Store → Jar →
    String → String → Store × Jar × Nat
  | SetItemFun.primitive, _, store, jar, k, v => (storeSetItem store k v, jar, 0)
  | SetItemFun.wrapper inner, sid, store, jar, k, v =>
    let r := execSetItem cfg inner sid store jar k v
    if shouldSyncStorage cfg sid && shouldSync cfg k then
      (r.1, (writeToCookie cfg r.2.1 k v).2, r.2.2 + 1)
    else r

/-! ## The readiness signal

The module-load tail of the source, in program order:
1. `init()` runs, and inside it `syncCookiesToStorage()` dispatches the
   first `storagesynccomplete` event (dispatching is synchronous);
2. the promise is created (capturing its resolver);
3. the `storagesynccomplete` listener that resolves the promise is
   registered.
Later replay passes dispatch further events.  The model replays these
steps against an explicit page state; an event dispatch reaches the
listener only if it is already registered. -/

/-- A step of the page's event history. -/
inductive LoadStep where
  | dispatchEvt (r : SyncReport)
  | registerReadyListener

/-- Listener-and-promise state. -/
structure PageState where
  listenerRegistered : Bool
  resolverActive : Bool
  promiseValue : Option SyncReport

/-- Execute one step: a dispatch resolves the promise only when the
listener is registered and the resolver has not been consumed (the
listener nulls it after the first resolution). -/
def stepLoad (st : PageState) : LoadStep → PageState
  | LoadStep.dispatchEvt r =>
    if st.listenerRegistered && st.resolverActive then
      { st with resolverActive := false, promiseValue := some r }
    else st
  | LoadStep.registerReadyListener => { st with listenerRegistered := true }

/-- Page state before the module runs. -/
def initialPageState : PageState :=
  { listenerRegistered := false, resolverActive := true, promiseValue := none }

/-- The module-load event history: the initial replay's completion event
fires inside `init()` (line 1080), before the listener is registered
(line 1092); each later replay pass dispatches one more event. -/
def moduleLoadTrace (r0 : SyncReport) (laterReports : List SyncReport) :
    List LoadStep :=
  LoadStep.dispatchEvt r0 :: LoadStep.registerReadyListener ::
    laterReports.map LoadStep.dispatchEvt

/-- Run an event history. -/
def runLoad (steps : List LoadStep) : PageState :=
  steps.foldl stepLoad initialPageState

/-! ## The domain resolver -/

/-- The test `/^\d+\.\d+\.\d+\.\d+$/.test(hostname)`: four runs of one or
more ASCII digits separated by dots.  (`\d+` cannot consume a dot, so the
greedy, non-backtracking reading below is exactly the regex.) -/
def isDottedQuad (s : String) : Bool :=
  let groups := splitOnChar '.' s.data
  groups.length = 4 && groups.all (fun g => !g.isEmpty && g.all Char.isDigit)

/-- `getParentDomain()`, parametrized by `window.location.hostname`:
`localhost` and dotted-quad IPv4 hosts are returned unchanged; otherwise
the last two dot-labels (or the whole hostname when there are at most
two) are returned with a leading dot. -/
def getParentDomain (hostname : String) : String :=
  if hostname = "localhost" ∨ isDottedQuad hostname then hostname
  else
    let parts := (splitOnChar '.' hostname.data).map String.mk
    if 2 < parts.length then
      "." ++ String.intercalate "." (parts.drop (parts.length - 2))
    else "." ++ hostname

/-! ## Well-formedness of cookie-jar contents

The parsing arguments below need the jar's entries to be parseable back
out of the rendered `document.cookie` string: names must be nonempty and
free of `;`, `=` and whitespace (true of every name the middleware writes,
since `sanitizeKey` replaces exactly those characters), and stored values
must be free of `;` and whitespace (true of every percent-encoded
value). -/

/-- A character that may appear in a cookie name without disturbing the
parsers. -/
def goodNameChar (c : Char) : Bool :=
  c != ';' && c != '=' && !isJsSpace c

/-- A character that may appear in a stored cookie value without
disturbing the parsers. -/
def goodValChar (c : Char) : Bool :=
  c != ';' && !isJsSpace c

/-- A parseable cookie name. -/
def nameOk (n : String) : Bool := !n.data.isEmpty && n.data.all goodNameChar

/-- A parseable stored cookie value. -/
def valOk (v : String) : Bool := v.data.all goodValChar

/-- A well-formed jar. -/
def jarWf (jar : Jar) : Bool := jar.all fun e => nameOk e.1 && valOk e.2

/-- Direct lookup of a cookie's stored value in the jar (what the
rendered-and-reparsed `document.cookie` scan computes). -/
def jarLookup (jar : Jar) (name : String) : Option String :=
  (jar.find? (fun e => e.1 == name)).map (fun e => e.2)

/-- The token string `encodeURIComponent` output lexes to. -/
def encodeToks (l : List Char) : List PctTok :=
  (l.map fun c =>
    if isUriUnreserved c then [PctTok.raw c]
    else (utf8Bytes c.toNat).map PctTok.byte).flatten

/-! # Lemmas

## The percent codec: `decodeURIComponent ∘ encodeURIComponent = id` -/

theorem char_toNat_valid (c : Char) :
    c.toNat < 0xd800 ∨ (0xdfff < c.toNat ∧ c.toNat < 0x110000) := c.valid

theorem char_toNat_lt (c : Char) : c.toNat < 0x110000 := by
  rcases char_toNat_valid c with h | h <;> omega

theorem hexVal_hexDigitChar (n : Nat) (h : n < 16) :
    hexVal (hexDigitChar n) = some n := by
  interval_cases n <;> decide

theorem pctLex_cons_raw {c : Char} (hc : c ≠ '%') (rest : List Char) :
    pctLex (c :: rest) = (pctLex rest).map (PctTok.raw c :: ·) := by
  rw [pctLex.eq_def]
  simp [hc]

theorem isUriUnreserved_ne_percent {c : Char} (h : isUriUnreserved c = true) :
    c ≠ '%' := by
  rintro rfl
  simp [isUriUnreserved] at h

theorem utf8Bytes_lt_256 {n : Nat} (hn : n < 0x110000) :
    ∀ b ∈ utf8Bytes n, b < 256 := by
  intro b hb
  unfold utf8Bytes at hb
  split at hb
  · simp at hb; omega
  · split at hb
    · simp at hb
      rcases hb with h | h <;> omega
    · split at hb
      · simp at hb
        rcases hb with h | h | h <;> omega
      · simp at hb
        rcases hb with h | h | h | h <;> omega

theorem pctLex_pctByte (b : Nat) (h : b < 256) (rest : List Char) :
    pctLex (pctByte b ++ rest) = (pctLex rest).map (PctTok.byte b :: ·) := by
  have h1 : b / 16 < 16 := by omega
  have h2 : b % 16 < 16 := by omega
  have hb : 16 * (b / 16) + b % 16 = b := by omega
  simp [pctByte, pctLex, hexVal_hexDigitChar _ h1, hexVal_hexDigitChar _ h2, hb]

theorem pctLex_pctBytes (bs : List Nat) (h : ∀ b ∈ bs, b < 256) (rest : List Char) :
    pctLex ((bs.map pctByte).flatten ++ rest) =
      (pctLex rest).map (fun ts => bs.map PctTok.byte ++ ts) := by
  induction bs with
  | nil => simp
  | cons b bs ih =>
    simp only [List.map_cons, List.flatten_cons, List.append_assoc]
    rw [pctLex_pctByte b (h b (by simp)) _, ih (fun x hx => h x (by simp [hx]))]
    cases pctLex rest <;> simp

theorem pctLex_encodeChars (l : List Char) :
    pctLex (encodeURIComponentChars l) = some (encodeToks l) := by
  induction l with
  | nil => simp [encodeURIComponentChars, encodeToks, pctLex]
  | cons c l ih =>
    simp only [encodeURIComponentChars, encodeToks, List.map_cons, List.flatten_cons]
      at ih ⊢
    by_cases hu : isUriUnreserved c = true
    · rw [encodeChar, if_pos hu]
      rw [List.singleton_append, pctLex_cons_raw (isUriUnreserved_ne_percent hu)]
      simp [ih, if_pos hu]
    · rw [encodeChar, if_neg hu]
      rw [pctLex_pctBytes _ (utf8Bytes_lt_256 (char_toNat_lt c)) _, ih]
      simp [if_neg hu]

theorem readCont_cont {b : Nat} (h : 0x80 ≤ b ∧ b < 0xC0) (rest : List PctTok) :
    readCont (PctTok.byte b :: rest) = some (b - 0x80, rest) := by
  have hc : isContByte b = true := by
    simp only [isContByte, Bool.and_eq_true, decide_eq_true_eq]
    omega
  simp [readCont, hc]

theorem utf8DecodeToksF_bytes (n : Nat)
    (hval : n < 0xd800 ∨ (0xdfff < n ∧ n < 0x110000)) (fuel : Nat)
    (rest : List PctTok) :
    utf8DecodeToksF (fuel + 1) ((utf8Bytes n).map PctTok.byte ++ rest) =
      (utf8DecodeToksF fuel rest).map (Char.ofNat n :: ·) := by
  by_cases h1 : n < 0x80
  · rw [utf8Bytes, if_pos h1]
    simp only [List.map_cons, List.map_nil, List.cons_append, List.nil_append]
    rw [utf8DecodeToksF, utf8DecodeByte, if_pos h1]
  by_cases h2 : n < 0x800
  · rw [utf8Bytes, if_neg h1, if_pos h2]
    simp only [List.map_cons, List.map_nil, List.cons_append, List.nil_append]
    rw [utf8DecodeToksF, utf8DecodeByte, if_neg (by omega), if_neg (by omega),
      if_pos (by omega), readCont_cont (by omega)]
    simp only [Option.some_bind]
    rw [if_pos (by omega),
      show (0xC0 + n / 64 - 0xC0) * 64 + (0x80 + n % 64 - 0x80) = n by omega]
  by_cases h3 : n < 0x10000
  · rw [utf8Bytes, if_neg h1, if_neg h2, if_pos h3]
    simp only [List.map_cons, List.map_nil, List.cons_append, List.nil_append]
    rw [utf8DecodeToksF, utf8DecodeByte, if_neg (by omega), if_neg (by omega),
      if_neg (by omega), if_pos (by omega), readCont_cont (by omega)]
    simp only [Option.some_bind]
    rw [readCont_cont (by omega)]
    simp only [Option.some_bind]
    rw [if_pos (by constructor <;> omega),
      show (0xE0 + n / 4096 - 0xE0) * 4096 + (0x80 + n / 64 % 64 - 0x80) * 64 +
        (0x80 + n % 64 - 0x80) = n by omega]
  · have hn : n < 0x110000 := by omega
    rw [utf8Bytes, if_neg h1, if_neg h2, if_neg h3]
    simp only [List.map_cons, List.map_nil, List.cons_append, List.nil_append]
    rw [utf8DecodeToksF, utf8DecodeByte, if_neg (by omega), if_neg (by omega),
      if_neg (by omega), if_neg (by omega), if_pos (by omega),
      readCont_cont (by omega)]
    simp only [Option.some_bind]
    rw [readCont_cont (by omega)]
    simp only [Option.some_bind]
    rw [readCont_cont (by omega)]
    simp only [Option.some_bind]
    rw [if_pos (by constructor <;> omega),
      show (0xF0 + n / 262144 - 0xF0) * 262144 + (0x80 + n / 4096 % 64 - 0x80) * 4096 +
        (0x80 + n / 64 % 64 - 0x80) * 64 + (0x80 + n % 64 - 0x80) = n by omega]

theorem utf8Bytes_length_pos (n : Nat) : 0 < (utf8Bytes n).length := by
  unfold utf8Bytes
  split
  · simp
  · split
    · simp
    · split <;> simp

theorem encodeToks_cons (c : Char) (l : List Char) :
    encodeToks (c :: l) =
      (if isUriUnreserved c then [PctTok.raw c]
       else (utf8Bytes c.toNat).map PctTok.byte) ++ encodeToks l := by
  simp [encodeToks]

theorem utf8DecodeToksF_encodeToks (l : List Char) : ∀ fuel : Nat,
    (encodeToks l).length ≤ fuel → utf8DecodeToksF fuel (encodeToks l) = some l := by
  induction l with
  | nil =>
    intro fuel _
    rw [show encodeToks [] = [] from rfl]
    cases fuel <;> rfl
  | cons c l ih =>
    intro fuel hf
    rw [encodeToks_cons] at hf ⊢
    by_cases hu : isUriUnreserved c = true
    · rw [if_pos hu] at hf ⊢
      simp only [List.singleton_append, List.length_cons] at hf
      obtain ⟨f, rfl⟩ : ∃ f, fuel = f + 1 := ⟨fuel - 1, by omega⟩
      rw [List.singleton_append, utf8DecodeToksF, ih f (by omega)]
      rfl
    · rw [if_neg hu] at hf ⊢
      have hlen := utf8Bytes_length_pos c.toNat
      simp only [List.length_append, List.length_map] at hf
      obtain ⟨f, rfl⟩ : ∃ f, fuel = f + 1 := ⟨fuel - 1, by omega⟩
      rw [utf8DecodeToksF_bytes c.toNat (char_toNat_valid c) f _, ih f (by omega)]
      simp

/-- The percent codec round-trips on every (Unicode scalar) string. -/
theorem percentDecode_encodeURIComponentChars (l : List Char) :
    percentDecode (encodeURIComponentChars l) = some l := by
  rw [percentDecode, pctLex_encodeChars]
  simpa [utf8DecodeToks] using
    utf8DecodeToksF_encodeToks l (encodeToks l).length (Nat.le_refl _)

/-! ## Character-class facts -/

theorem isJsSpace_not_unreserved {c : Char} (h : isJsSpace c = true) :
    isUriUnreserved c = false := by
  have hmem : c ∈ jsWhitespaceChars := of_decide_eq_true h
  fin_cases hmem <;> decide

theorem isUriUnreserved_goodVal {c : Char} (h : isUriUnreserved c = true) :
    goodValChar c = true := by
  have hsemi : c ≠ ';' := by
    rintro rfl
    simp [isUriUnreserved] at h
  have hs : isJsSpace c = false := by
    cases hval : isJsSpace c
    · rfl
    · rw [isJsSpace_not_unreserved hval] at h
      cases h
  simp [goodValChar, hsemi, hs]

theorem goodValChar_hexDigitChar {n : Nat} (h : n < 16) :
    goodValChar (hexDigitChar n) = true := by
  interval_cases n <;> decide

theorem goodValChar_encodeChar {c : Char} :
    ∀ x ∈ encodeChar c, goodValChar x = true := by
  intro x hx
  rw [encodeChar] at hx
  split at hx
  · rename_i h
    simp only [List.mem_singleton] at hx
    subst hx
    exact isUriUnreserved_goodVal h
  · simp only [List.mem_flatten, List.mem_map] at hx
    obtain ⟨_, ⟨b, hb, rfl⟩, hx⟩ := hx
    have hb256 : b < 256 := utf8Bytes_lt_256 (char_toNat_lt c) b hb
    rw [pctByte] at hx
    simp only [List.mem_cons, List.mem_singleton, List.not_mem_nil, or_false] at hx
    rcases hx with rfl | rfl | rfl
    · decide
    · exact goodValChar_hexDigitChar (by omega)
    · exact goodValChar_hexDigitChar (by omega)

theorem valOk_encodeURIComponent (s : String) :
    valOk (encodeURIComponent s) = true := by
  rw [valOk, List.all_eq_true]
  intro x hx
  rw [encodeURIComponent] at hx
  have hx' : x ∈ encodeURIComponentChars s.data := hx
  rw [encodeURIComponentChars] at hx'
  simp only [List.mem_flatten, List.mem_map] at hx'
  obtain ⟨_, ⟨c, _, rfl⟩, hx'⟩ := hx'
  exact goodValChar_encodeChar x hx'

theorem goodNameChar_of_not_forbidden {c : Char} (h : isForbiddenKeyChar c = false) :
    goodNameChar c = true := by
  rw [isForbiddenKeyChar] at h
  simp only [Bool.or_eq_false_iff, beq_eq_false_iff_ne] at h
  obtain ⟨⟨⟨h1, _⟩, h2⟩, h3⟩ := h
  simp [goodNameChar, h1, h2, h3]

/-! ## Facts about `sanitizeKey` -/

theorem sanitizeKey_good {k sk : String} (h : sanitizeKey k = some sk) :
    ∀ c ∈ sk.data, goodNameChar c = true := by
  rw [sanitizeKey] at h
  split at h
  · cases h
  · split at h
    · cases h
    · obtain rfl := Option.some.inj h
      intro c hc
      simp only [List.mem_map] at hc
      obtain ⟨c0, _, rfl⟩ := hc
      split
      · decide
      · exact goodNameChar_of_not_forbidden (by simp_all)

theorem sanitizeKey_ne_nil {k sk : String} (h : sanitizeKey k = some sk) :
    sk.data ≠ [] := by
  rw [sanitizeKey] at h
  split at h
  · cases h
  · split at h
    · cases h
    · obtain rfl := Option.some.inj h
      rename_i hlen _
      intro hc
      apply hlen
      have h0 : k.data.length = 0 := by
        have h1 := congrArg List.length hc
        simpa using h1
      exact h0

/-! ## Splitting, trimming and scanning the rendered cookie string -/

theorem splitOnChar_ne_nil (sep : Char) (l : List Char) :
    splitOnChar sep l ≠ [] := by
  cases l with
  | nil => simp [splitOnChar]
  | cons c rest =>
    rw [splitOnChar]
    cases splitOnChar sep rest with
    | nil => simp
    | cons s ss =>
      dsimp only
      split <;> simp

theorem splitOnChar_no_sep (sep : Char) (l : List Char) (h : ∀ c ∈ l, c ≠ sep) :
    splitOnChar sep l = [l] := by
  induction l with
  | nil => rfl
  | cons c rest ih =>
    rw [splitOnChar, ih (fun x hx => h x (List.mem_cons_of_mem _ hx))]
    simp [h c (List.mem_cons_self _ _)]

theorem splitOnChar_append_sep (sep : Char) (l r : List Char)
    (h : ∀ c ∈ l, c ≠ sep) :
    splitOnChar sep (l ++ sep :: r) = l :: splitOnChar sep r := by
  induction l with
  | nil =>
    simp only [List.nil_append]
    rw [splitOnChar]
    cases hr : splitOnChar sep r with
    | nil => exact absurd hr (splitOnChar_ne_nil sep r)
    | cons s ss => simp
  | cons c rest ih =>
    simp only [List.cons_append]
    rw [splitOnChar, ih (fun x hx => h x (List.mem_cons_of_mem _ hx))]
    simp [h c (List.mem_cons_self _ _)]

theorem trimChars_no_space (l : List Char) (h : ∀ c ∈ l, isJsSpace c = false) :
    trimChars l = l := by
  have h1 : l.dropWhile isJsSpace = l := by
    cases l with
    | nil => rfl
    | cons c rest => simp [List.dropWhile_cons, h c (List.mem_cons_self _ _)]
  have h2 : l.reverse.dropWhile isJsSpace = l.reverse := by
    cases hr : l.reverse with
    | nil => rfl
    | cons c rest =>
      have hc : c ∈ l := by
        rw [← List.mem_reverse, hr]
        exact List.mem_cons_self _ _
      simp [List.dropWhile_cons, h c hc]
  rw [trimChars, h1, h2, List.reverse_reverse]

theorem trimChars_cons_space {c : Char} (h : isJsSpace c = true) (l : List Char) :
    trimChars (c :: l) = trimChars l := by
  rw [trimChars, trimChars, List.dropWhile_cons, if_pos h]

theorem splitEq_append (n v : List Char) (h : ∀ c ∈ n, c ≠ '=') :
    splitEq (n ++ '=' :: v) = some (n, v) := by
  induction n with
  | nil => simp [splitEq]
  | cons c rest ih =>
    rw [List.cons_append, splitEq,
      if_neg (h c (List.mem_cons_self _ _)),
      ih (fun x hx => h x (List.mem_cons_of_mem _ hx))]
    rfl

theorem scanSegments_cons_space (target s : List Char) (ss : List (List Char)) :
    scanSegments target ((' ' :: s) :: ss) = scanSegments target (s :: ss) := by
  rw [scanSegments, scanSegments, trimChars_cons_space (by decide)]

theorem scanSegments_split_space (target l : List Char) :
    scanSegments target (splitOnChar ';' (' ' :: l)) =
      scanSegments target (splitOnChar ';' l) := by
  rw [splitOnChar]
  cases hl : splitOnChar ';' l with
  | nil => exact absurd hl (splitOnChar_ne_nil ';' l)
  | cons s ss =>
    dsimp only
    rw [if_neg (by decide)]
    exact scanSegments_cons_space target s ss


/-! ## Jar lemmas -/

theorem goodNameChar_spec {c : Char} (h : goodNameChar c = true) :
    c ≠ ';' ∧ c ≠ '=' ∧ isJsSpace c = false := by
  simp only [goodNameChar, Bool.and_eq_true, bne_iff_ne, ne_eq,
    Bool.not_eq_true'] at h
  tauto

theorem goodValChar_spec {c : Char} (h : goodValChar c = true) :
    c ≠ ';' ∧ isJsSpace c = false := by
  simp only [goodValChar, Bool.and_eq_true, bne_iff_ne, ne_eq,
    Bool.not_eq_true'] at h
  tauto

theorem nameOk_spec {n : String} (h : nameOk n = true) :
    n.data ≠ [] ∧ ∀ c ∈ n.data, goodNameChar c = true := by
  simp only [nameOk, Bool.and_eq_true, Bool.not_eq_true', List.all_eq_true] at h
  refine ⟨?_, h.2⟩
  intro hc
  have h1 := h.1
  rw [hc] at h1
  simp at h1

theorem nameOk_append {p sk : String} (hp : nameOk p = true)
    (hsk : ∀ c ∈ sk.data, goodNameChar c = true) : nameOk (p ++ sk) = true := by
  obtain ⟨hne, hall⟩ := nameOk_spec hp
  simp only [nameOk, String.data_append, Bool.and_eq_true, Bool.not_eq_true',
    List.all_eq_true, List.mem_append]
  refine ⟨?_, ?_⟩
  · cases hd : p.data with
    | nil => exact absurd hd hne
    | cons a l => simp [hd]
  · rintro c (hc | hc)
    · exact hall c hc
    · exact hsk c hc

theorem jarLookup_cons_self (n v : String) (jar : Jar) :
    jarLookup ((n, v) :: jar) n = some v := by
  simp [jarLookup, List.find?_cons_of_pos]

theorem jarLookup_cons_ne {n target : String} (h : n ≠ target) (v : String)
    (jar : Jar) :
    jarLookup ((n, v) :: jar) target = jarLookup jar target := by
  rw [jarLookup, List.find?_cons_of_neg _ (by simp [h]), jarLookup]

theorem jarLookup_setCookieEntry_self (jar : Jar) (n v : String) :
    jarLookup (setCookieEntry jar n v) n = some v := by
  induction jar with
  | nil => simp [setCookieEntry, jarLookup]
  | cons e jar ih =>
    obtain ⟨n1, v1⟩ := e
    rw [setCookieEntry]
    split
    · exact jarLookup_cons_self n v jar
    · rename_i h
      rw [jarLookup_cons_ne h]
      exact ih

theorem jarWf_setCookieEntry {jar : Jar} (hwf : jarWf jar = true) {n v : String}
    (hn : nameOk n = true) (hv : valOk v = true) :
    jarWf (setCookieEntry jar n v) = true := by
  induction jar with
  | nil => simp [setCookieEntry, jarWf, hn, hv]
  | cons e jar ih =>
    obtain ⟨n1, v1⟩ := e
    simp only [jarWf, List.all_cons, Bool.and_eq_true] at hwf
    obtain ⟨he, hrest⟩ := hwf
    rw [setCookieEntry]
    split
    · simp only [jarWf, List.all_cons, Bool.and_eq_true]
      exact ⟨by simp [hn, hv], hrest⟩
    · simp only [jarWf, List.all_cons, Bool.and_eq_true]
      refine ⟨he, ?_⟩
      simpa [jarWf] using ih (by simpa [jarWf] using hrest)

theorem setCookieEntry_ne_nil (jar : Jar) (n v : String) :
    setCookieEntry jar n v ≠ [] := by
  cases jar with
  | nil => simp [setCookieEntry]
  | cons e jar =>
    obtain ⟨n1, v1⟩ := e
    rw [setCookieEntry]
    split <;> simp

theorem docCookieChars_cons_ne_nil (e : String × String) (jar : Jar) :
    docCookieChars (e :: jar) ≠ [] := by
  obtain ⟨n, v⟩ := e
  cases jar <;> simp [docCookieChars]

/-- The scan loop of `readFromCookie`, run over the rendered
`document.cookie` string of a well-formed jar, computes exactly
"look the name up, percent-decode the stored value". -/
theorem scanSegments_docCookie (target : String) (jar : Jar)
    (hwf : jarWf jar = true) :
    scanSegments target.data (splitOnChar ';' (docCookieChars jar)) =
      (jarLookup jar target).bind
        (fun v => (percentDecode v.data).map String.mk) := by
  induction jar with
  | nil => rfl
  | cons e jar ih =>
    obtain ⟨n, v⟩ := e
    simp only [jarWf, List.all_cons, Bool.and_eq_true] at hwf
    obtain ⟨⟨hn, hv⟩, hwfr⟩ := hwf
    obtain ⟨hnne, hnchars⟩ := nameOk_spec hn
    have hvchars : ∀ c ∈ v.data, goodValChar c = true := List.all_eq_true.mp hv
    have hsegsemi : ∀ c ∈ n.data ++ '=' :: v.data, c ≠ ';' := by
      intro c hc
      rcases List.mem_append.mp hc with h | h
      · exact (goodNameChar_spec (hnchars c h)).1
      · rcases List.mem_cons.mp h with rfl | h
        · decide
        · exact (goodValChar_spec (hvchars c h)).1
    have hsegsp : ∀ c ∈ n.data ++ '=' :: v.data, isJsSpace c = false := by
      intro c hc
      rcases List.mem_append.mp hc with h | h
      · exact (goodNameChar_spec (hnchars c h)).2.2
      · rcases List.mem_cons.mp h with rfl | h
        · decide
        · exact (goodValChar_spec (hvchars c h)).2
    have hneq : ∀ c ∈ n.data, c ≠ '=' :=
      fun c hc => (goodNameChar_spec (hnchars c hc)).2.1
    cases jar with
    | nil =>
      rw [show docCookieChars [(n, v)] = n.data ++ '=' :: v.data from rfl]
      rw [splitOnChar_no_sep _ _ hsegsemi, scanSegments,
        trimChars_no_space _ hsegsp, splitEq_append _ _ hneq]
      dsimp only
      by_cases heq : n = target
      · subst heq
        rw [if_pos rfl, jarLookup_cons_self, Option.some_bind]
      · rw [if_neg (fun hd => heq (String.ext hd)), jarLookup_cons_ne heq]
        rfl
    | cons e2 jar2 =>
      rw [show docCookieChars ((n, v) :: e2 :: jar2) =
          (n.data ++ '=' :: v.data) ++ ';' :: ' ' :: docCookieChars (e2 :: jar2) from by
        simp [docCookieChars]]
      rw [splitOnChar_append_sep _ _ _ hsegsemi, scanSegments,
        trimChars_no_space _ hsegsp, splitEq_append _ _ hneq]
      dsimp only
      by_cases heq : n = target
      · subst heq
        rw [if_pos rfl, jarLookup_cons_self, Option.some_bind]
      · rw [if_neg (fun hd => heq (String.ext hd)), jarLookup_cons_ne heq,
          scanSegments_split_space, ih hwfr]


/-! # Claims -/

/-- Jar effect of a successful `writeToCookie`: upsert on the rendered
name. -/
theorem writeToCookie_success {cfg : Config} {jar : Jar} {k v sk sv : String}
    (hk : sanitizeKey k = some sk) (hv : sanitizeValue v = some sv)
    (hage : 0 < cfg.cookieMaxAge) :
    writeToCookie cfg jar k v =
      (true, setCookieEntry jar (cfg.cookiePrefix ++ sk)
        (encodeURIComponent sv)) := by
  rw [writeToCookie, hk]
  dsimp only
  rw [hv]
  dsimp only
  rw [docCookieSet, if_neg (by omega)]

/-- C1: for every key accepted by `sanitizeKey` and every string value of
length at most 3500, writing the cookie and then reading it back under the
same original (unsanitized) key returns exactly the value — on any
well-formed cookie jar, for any configuration whose cookie prefix is a
parseable cookie-name fragment and whose `cookieMaxAge` is positive (as
every validated configuration's is).  Sanitization is applied on both
paths, so keys containing forbidden characters round-trip too. -/
theorem writeToCookie_readFromCookie_roundtrip
    (cfg : Config) (jar : Jar) (k v : String)
    (hpre : nameOk cfg.cookiePrefix = true)
    (hage : 0 < cfg.cookieMaxAge)
    (hwf : jarWf jar = true)
    (hk : sanitizeKey k ≠ none)
    (hv : v.length ≤ 3500) :
    readFromCookie cfg (writeToCookie cfg jar k v).2 k = some v := by
  obtain ⟨sk, hsk⟩ := Option.ne_none_iff_exists'.mp hk
  have hsv : sanitizeValue v = some v := by
    rw [sanitizeValue, if_neg (by omega)]
  rw [writeToCookie_success hsk hsv hage]
  have hnameok : nameOk (cfg.cookiePrefix ++ sk) = true :=
    nameOk_append hpre (sanitizeKey_good hsk)
  have hwf2 : jarWf (setCookieEntry jar (cfg.cookiePrefix ++ sk)
      (encodeURIComponent v)) = true :=
    jarWf_setCookieEntry hwf hnameok (valOk_encodeURIComponent v)
  have hne : docCookieChars (setCookieEntry jar (cfg.cookiePrefix ++ sk)
      (encodeURIComponent v)) ≠ [] := by
    rcases hj : setCookieEntry jar (cfg.cookiePrefix ++ sk)
        (encodeURIComponent v) with _ | ⟨e, rest⟩
    · exact absurd hj (setCookieEntry_ne_nil jar _ _)
    · exact docCookieChars_cons_ne_nil e rest
  rw [readFromCookie, hsk]
  dsimp only
  rw [if_neg hne]
  rw [scanSegments_docCookie _ _ hwf2, jarLookup_setCookieEntry_self,
    Option.some_bind]
  rw [show (encodeURIComponent v).data = encodeURIComponentChars v.data from rfl]
  rw [percentDecode_encodeURIComponentChars]
  obtain ⟨vd⟩ := v
  rfl

/-- C1 witness: the forbidden-character key of the spec's example
round-trips on the default configuration and an empty jar. -/
theorem writeToCookie_readFromCookie_roundtrip_witness :
    nameOk defaultConfig.cookiePrefix = true ∧
    (0 : Int) < defaultConfig.cookieMaxAge ∧
    jarWf [] = true ∧
    sanitizeKey "key;=with,bad" ≠ none ∧
    String.length "value" ≤ 3500 ∧
    readFromCookie defaultConfig
      (writeToCookie defaultConfig [] "key;=with,bad" "value").2
      "key;=with,bad" = some "value" :=
  ⟨by decide, by decide, by decide, by decide, by decide,
    writeToCookie_readFromCookie_roundtrip defaultConfig [] "key;=with,bad"
      "value" (by decide) (by decide) (by decide) (by decide) (by decide)⟩

/-- C7: `writeToCookie` (a total function here — the source wraps the body
in try/catch and never throws) returns `false` exactly when key
sanitization fails (empty or over-200-character keys; the non-string case
lies outside the typed embedding) or value sanitization fails (sanitized
value longer than 3500 characters); on failure the jar is untouched, so a
read of a key that had no cookie still returns `null`. -/
theorem writeToCookie_failure_spec (cfg : Config) (jar : Jar) (k v : String) :
    ((writeToCookie cfg jar k v).1 = false ↔
      sanitizeKey k = none ∨ sanitizeValue v = none) ∧
    ((writeToCookie cfg jar k v).1 = false →
      (writeToCookie cfg jar k v).2 = jar) ∧
    ((writeToCookie cfg jar k v).1 = false → readFromCookie cfg jar k = none →
      readFromCookie cfg (writeToCookie cfg jar k v).2 k = none) := by
  rcases hk : sanitizeKey k with _ | sk
  · simp [writeToCookie, hk]
  · rcases hv : sanitizeValue v with _ | sv
    · simp [writeToCookie, hk, hv]
    · simp [writeToCookie, hk, hv]

/-- C7 witness: an over-long value (5000 characters) fails, leaves the jar
unchanged, and the subsequent read returns `null`. -/
theorem writeToCookie_failure_spec_witness :
    (writeToCookie defaultConfig [] "large"
      (String.mk (List.replicate 5000 'x'))).1 = false ∧
    (writeToCookie defaultConfig [] "large"
      (String.mk (List.replicate 5000 'x'))).2 = ([] : Jar) ∧
    readFromCookie defaultConfig
      (writeToCookie defaultConfig [] "large"
        (String.mk (List.replicate 5000 'x'))).2 "large" = none := by
  have hfail : (writeToCookie defaultConfig [] "large"
      (String.mk (List.replicate 5000 'x'))).1 = false := by
    have hval : sanitizeValue (String.mk (List.replicate 5000 'x')) = none := by
      have hlen : (String.mk (List.replicate 5000 'x')).length = 5000 := by
        show (List.replicate 5000 'x').length = 5000
        rw [List.length_replicate]
      rw [sanitizeValue, if_pos (by omega)]
    rw [writeToCookie]
    rw [show sanitizeKey "large" = some "large" from by decide]
    dsimp only
    rw [hval]
  refine ⟨hfail, ?_, ?_⟩
  · exact (writeToCookie_failure_spec defaultConfig [] "large" _).2.1 hfail
  · exact (writeToCookie_failure_spec defaultConfig [] "large" _).2.2 hfail
      (by decide)


/-- C4 (code bug): `validateConfig` on a configuration whose
`cookiePrefix` is invalid (empty) repairs the field to `"ls_sync_"` —
not to the documented default `"sds_sync_"` that `CONFIG` is initialized
with (and that the test suite and type declarations document) — and
reports the configuration as having needed repair. -/
theorem validateConfig_cookiePrefix_fallback :
    (validateConfig { defaultConfig with cookiePrefix := "" }).1.cookiePrefix
        = "ls_sync_" ∧
    defaultConfig.cookiePrefix = "sds_sync_" ∧
    "ls_sync_" ≠ "sds_sync_" ∧
    (validateConfig { defaultConfig with cookiePrefix := "" }).2 = false := by
  refine ⟨rfl, rfl, by decide, rfl⟩

/-- C8: the domain resolver returns `localhost` and dotted-quad IPv4
hostnames unchanged; any other hostname is split on dots and mapped to a
leading dot plus the last two labels (more than two labels) or plus the
whole hostname (at most two labels). -/
theorem getParentDomain_spec (hostname : String) :
    ((hostname = "localhost" ∨ isDottedQuad hostname = true) →
      getParentDomain hostname = hostname) ∧
    (¬ (hostname = "localhost" ∨ isDottedQuad hostname = true) →
      (2 < ((splitOnChar '.' hostname.data).map String.mk).length →
        getParentDomain hostname =
          "." ++ String.intercalate "."
            (((splitOnChar '.' hostname.data).map String.mk).drop
              (((splitOnChar '.' hostname.data).map String.mk).length - 2))) ∧
      (¬ 2 < ((splitOnChar '.' hostname.data).map String.mk).length →
        getParentDomain hostname = "." ++ hostname)) := by
  refine ⟨fun h => ?_, fun h => ⟨fun h2 => ?_, fun h2 => ?_⟩⟩
  · rw [getParentDomain, if_pos h]
  · rw [getParentDomain, if_neg h]
    dsimp only
    rw [if_pos h2]
  · rw [getParentDomain, if_neg h]
    dsimp only
    rw [if_neg h2]

/-- C8 witness: `localhost` is returned unchanged and a three-label host
maps to the dotted parent domain. -/
theorem getParentDomain_spec_witness :
    getParentDomain "localhost" = "localhost" ∧
    getParentDomain "app.example.com" = ".example.com" := by
  constructor
  · exact (getParentDomain_spec "localhost").1 (Or.inl rfl)
  · exact (((getParentDomain_spec "app.example.com").2 (by decide)).1
      (by decide)).trans (by decide)

/-- C6: `shouldSync` rejects the empty (falsy) key; accepts every key when
the rule list is empty; otherwise accepts exactly the keys some rule
matches (exact rules by string equality, pattern rules by their test); and
its boolean outcome is invariant under permutation of the rule list. -/
theorem shouldSync_spec (cfg : Config) (key : String) :
    (key = "" → shouldSync cfg key = false) ∧
    (key ≠ "" → cfg.syncKeys = [] → shouldSync cfg key = true) ∧
    (key ≠ "" → cfg.syncKeys ≠ [] →
      (shouldSync cfg key = true ↔
        ∃ r ∈ cfg.syncKeys, ruleMatches key r = true)) ∧
    (∀ rules2, cfg.syncKeys.Perm rules2 →
      shouldSync cfg key = shouldSync { cfg with syncKeys := rules2 } key) := by
  refine ⟨fun h => ?_, fun h h2 => ?_, fun h h2 => ?_, fun rules2 hp => ?_⟩
  · rw [shouldSync, if_pos h]
  · rw [shouldSync, if_neg h, if_pos (by simp [h2])]
  · rw [shouldSync, if_neg h,
      if_neg (by simpa [List.isEmpty_iff] using h2)]
    exact List.any_eq_true
  · by_cases h : key = ""
    · rw [shouldSync, if_pos h, shouldSync, if_pos h]
    · rw [shouldSync, if_neg h, shouldSync, if_neg h]
      by_cases he : cfg.syncKeys = []
      · have he2 : rules2 = [] := by
          have hp2 := hp
          rw [he] at hp2
          exact hp2.symm.eq_nil
        simp [he, he2]
      · have he2 : rules2 ≠ [] := by
          intro hh
          rw [hh] at hp
          exact he hp.eq_nil
        rw [if_neg (by simpa [List.isEmpty_iff] using he),
          if_neg (by simpa [List.isEmpty_iff] using he2)]
        have : (cfg.syncKeys.any (ruleMatches key) = true) ↔
            (rules2.any (ruleMatches key) = true) := by
          rw [List.any_eq_true, List.any_eq_true]
          constructor
          · rintro ⟨r, hr, hm⟩
            exact ⟨r, hp.mem_iff.mp hr, hm⟩
          · rintro ⟨r, hr, hm⟩
            exact ⟨r, hp.mem_iff.mpr hr, hm⟩
        cases hx : cfg.syncKeys.any (ruleMatches key) with
        | true => exact (this.mp hx).symm ▸ (this.mp hx).symm
        | false =>
          cases hy : rules2.any (ruleMatches key) with
          | true => exact absurd (this.mpr hy) (by simp [hx])
          | false => rfl

/-- C6 witness: with two exact rules, the second matches; swapping the
rules leaves the outcome unchanged. -/
theorem shouldSync_spec_witness :
    shouldSync { defaultConfig with
      syncKeys := [SyncKeyRule.exact "a", SyncKeyRule.exact "b"] } "b" = true ∧
    shouldSync { defaultConfig with
      syncKeys := [SyncKeyRule.exact "a", SyncKeyRule.exact "b"] } "b" =
    shouldSync { defaultConfig with
      syncKeys := [SyncKeyRule.exact "b", SyncKeyRule.exact "a"] } "b" := by
  constructor
  · exact ((shouldSync_spec { defaultConfig with
      syncKeys := [SyncKeyRule.exact "a", SyncKeyRule.exact "b"] } "b").2.2.1
      (by decide) (by exact List.cons_ne_nil _ _)).mpr
      ⟨SyncKeyRule.exact "b",
        List.mem_cons_of_mem _ (List.mem_cons_self _ _), by decide⟩
  · exact (shouldSync_spec { defaultConfig with
      syncKeys := [SyncKeyRule.exact "a", SyncKeyRule.exact "b"] } "b").2.2.2
      [SyncKeyRule.exact "b", SyncKeyRule.exact "a"] (List.Perm.swap _ _ _)

theorem stepLoad_inactive {st : PageState} (h : st.resolverActive = false)
    (r : SyncReport) : stepLoad st (LoadStep.dispatchEvt r) = st := by
  rw [stepLoad, if_neg (by simp [h])]

theorem foldl_stepLoad_inactive {st : PageState} (h : st.resolverActive = false)
    (rs : List SyncReport) :
    (rs.map LoadStep.dispatchEvt).foldl stepLoad st = st := by
  induction rs with
  | nil => rfl
  | cons r rs ih =>
    rw [List.map_cons, List.foldl_cons, stepLoad_inactive h r]
    exact ih

/-- C3 (code bug): the completion event of the initialization replay is
dispatched synchronously inside `init()` — before the promise and its
`storagesynccomplete` listener are created — so `ready()`'s promise
resolves with the report of the first replay pass made *after* module
load, and never resolves when no such pass occurs; it does not resolve
with the initial replay's report. -/
theorem foldl_stepLoad_active {st : PageState}
    (h1 : st.listenerRegistered = true) (h2 : st.resolverActive = true)
    (h3 : st.promiseValue = none) (rs : List SyncReport) :
    ((rs.map LoadStep.dispatchEvt).foldl stepLoad st).promiseValue =
      rs.head? := by
  cases rs with
  | nil => simpa using h3
  | cons r rs =>
    rw [List.map_cons, List.foldl_cons]
    have hstep : stepLoad st (LoadStep.dispatchEvt r) =
        { st with resolverActive := false, promiseValue := some r } := by
      rw [stepLoad, if_pos (by simp [h1, h2])]
    rw [hstep, foldl_stepLoad_inactive rfl rs]
    rfl

theorem ready_promise_resolves_with_first_later_report (r0 : SyncReport)
    (laterReports : List SyncReport) :
    (runLoad (moduleLoadTrace r0 laterReports)).promiseValue =
      laterReports.head? := by
  rw [runLoad, moduleLoadTrace, List.foldl_cons, List.foldl_cons]
  have h1 : stepLoad initialPageState (LoadStep.dispatchEvt r0) =
      initialPageState := by
    rw [stepLoad, if_neg (by decide)]
  rw [h1]
  exact foldl_stepLoad_active rfl rfl rfl laterReports

/-- C9: every (re)initialization assigns `wrapper(originalSetItem)` into
the `setItem` slot, where `originalSetItem` is the module-load capture of
the native primitive — so after any positive number of reinitializations
the slot is a single wrapper, and one storage write performs exactly one
cookie write when the backend is in scope and the key matches (zero
otherwise), not N. -/
theorem reinitialize_single_interception (cfg : Config) (n : Nat) (hn : 1 ≤ n)
    (sid : StorageId) (store : Store) (jar : Jar) (key value : String) :
    (installInterception SetItemFun.primitive)^[n] SetItemFun.primitive =
      SetItemFun.wrapper SetItemFun.primitive ∧
    (execSetItem cfg ((installInterception SetItemFun.primitive)^[n]
        SetItemFun.primitive) sid store jar key value).2.2 =
      if shouldSyncStorage cfg sid && shouldSync cfg key then 1 else 0 := by
  have hslot : (installInterception SetItemFun.primitive)^[n]
      SetItemFun.primitive = SetItemFun.wrapper SetItemFun.primitive := by
    obtain ⟨m, rfl⟩ : ∃ m, n = m + 1 := ⟨n - 1, by omega⟩
    rw [Function.iterate_succ_apply']
    rfl
  refine ⟨hslot, ?_⟩
  rw [hslot]
  by_cases hcond : (shouldSyncStorage cfg sid && shouldSync cfg key) = true
  · simp [execSetItem, hcond]
  · simp [execSetItem, hcond]

/-- C9 witness: after three initializations, a matched in-scope write
performs exactly one cookie write. -/
theorem reinitialize_single_interception_witness :
    (execSetItem defaultConfig ((installInterception SetItemFun.primitive)^[3]
        SetItemFun.primitive) StorageId.localId [] [] "k" "v").2.2 = 1 := by
  rw [(reinitialize_single_interception defaultConfig 3 (by omega)
    StorageId.localId [] [] "k" "v").2]
  decide


/-! ## Deletion lemmas (for the same-tab `clear` interception) -/

theorem jarWf_removeCookieEntry {jar : Jar} (hwf : jarWf jar = true)
    (name : String) : jarWf (removeCookieEntry jar name) = true := by
  rw [jarWf, List.all_eq_true] at hwf ⊢
  intro e he
  exact hwf e (List.mem_of_mem_filter he)

theorem jarLookup_removeCookieEntry_self (jar : Jar) (name : String) :
    jarLookup (removeCookieEntry jar name) name = none := by
  rw [jarLookup, Option.map_eq_none']
  rw [List.find?_eq_none]
  intro x hx
  have hmem := List.of_mem_filter hx
  simp only [bne_iff_ne, ne_eq] at hmem
  simpa using hmem

theorem jarLookup_none_removeCookieEntry {jar : Jar} {name : String}
    (h : jarLookup jar name = none) (other : String) :
    jarLookup (removeCookieEntry jar other) name = none := by
  simp only [jarLookup, Option.map_eq_none'] at h ⊢
  rw [List.find?_eq_none] at h ⊢
  intro x hx
  exact h x (List.mem_of_mem_filter hx)

theorem clearFold_wf (cfg : Config) (keys : List String) (jar : Jar)
    (hwf : jarWf jar = true) :
    jarWf (keys.foldl
      (fun j k => if shouldSync cfg k then (deleteFromCookie cfg j k).2 else j)
      jar) = true := by
  induction keys generalizing jar with
  | nil => exact hwf
  | cons k keys ih =>
    rw [List.foldl_cons]
    apply ih
    by_cases hs : shouldSync cfg k = true
    · rw [if_pos hs]
      rcases hsk : sanitizeKey k with _ | sk
      · rw [deleteFromCookie, hsk]
        exact hwf
      · rw [deleteFromCookie, hsk]
        dsimp only
        rw [docCookieSet, if_pos (le_refl (0 : Int))]
        exact jarWf_removeCookieEntry hwf _
    · rw [if_neg hs]
      exact hwf

theorem clearFold_absent_preserved (cfg : Config) (keys : List String)
    {jar : Jar} {name : String} (h : jarLookup jar name = none) :
    jarLookup (keys.foldl
      (fun j k => if shouldSync cfg k then (deleteFromCookie cfg j k).2 else j)
      jar) name = none := by
  induction keys generalizing jar with
  | nil => exact h
  | cons k keys ih =>
    rw [List.foldl_cons]
    apply ih
    by_cases hs : shouldSync cfg k = true
    · rw [if_pos hs]
      rcases hsk : sanitizeKey k with _ | sk
      · rw [deleteFromCookie, hsk]
        exact h
      · rw [deleteFromCookie, hsk]
        dsimp only
        rw [docCookieSet, if_pos (le_refl (0 : Int))]
        exact jarLookup_none_removeCookieEntry h _
    · rw [if_neg hs]
      exact h

theorem clearFold_absent (cfg : Config) (keys : List String) (jar : Jar)
    {k sk : String} (hk : k ∈ keys) (hs : shouldSync cfg k = true)
    (hsk : sanitizeKey k = some sk) :
    jarLookup (keys.foldl
      (fun j k => if shouldSync cfg k then (deleteFromCookie cfg j k).2 else j)
      jar) (cfg.cookiePrefix ++ sk) = none := by
  induction keys generalizing jar with
  | nil => cases hk
  | cons k1 keys ih =>
    rw [List.foldl_cons]
    rcases List.mem_cons.mp hk with rfl | hk2
    · apply clearFold_absent_preserved
      rw [if_pos hs, deleteFromCookie, hsk]
      dsimp only
      rw [docCookieSet, if_pos (le_refl (0 : Int))]
      exact jarLookup_removeCookieEntry_self _ _
    · exact ih _ hk2

/-- `readFromCookie` returns `null` whenever the looked-up cookie name is
absent from (a well-formed) jar — also covering unsanitizable keys. -/
theorem readFromCookie_none (cfg : Config) (jar : Jar) (k : String)
    (hwf : jarWf jar = true)
    (h : ∀ sk, sanitizeKey k = some sk →
      jarLookup jar (cfg.cookiePrefix ++ sk) = none) :
    readFromCookie cfg jar k = none := by
  rcases hk : sanitizeKey k with _ | sk
  · rw [readFromCookie, hk]
  · rw [readFromCookie, hk]
    dsimp only
    by_cases hdoc : docCookieChars jar = []
    · rw [if_pos hdoc]
    · rw [if_neg hdoc, scanSegments_docCookie _ _ hwf, h sk hk]
      rfl

/-- C5: a cross-tab storage notification with a null key (signalling a
full clear of a backend in another tab) leaves the cookie jar untouched,
while the same-tab `clear()` interception on an in-scope backend deletes
the cookie of every pre-clear key of that backend that the key matcher
accepts — afterwards `readFromCookie` returns `null` for each such key. -/
theorem clear_asymmetry (cfg : Config) (jar : Jar) (st : Storages)
    (sid : StorageId) (oldV newV : Option String)
    (hwf : jarWf jar = true) :
    handleStorageEvent cfg jar
      { key := none, oldValue := oldV, newValue := newV,
        storageArea := sid } = jar ∧
    (shouldSyncStorage cfg sid = true →
      ∀ k ∈ (st.get sid).map Prod.fst, shouldSync cfg k = true →
        readFromCookie cfg (storageClear cfg st jar sid).2 k = none) := by
  constructor
  · rw [handleStorageEvent]
    split
    · rfl
    · rfl
  · intro hscope k hk hs
    rw [storageClear, if_pos hscope]
    dsimp only
    apply readFromCookie_none
    · exact clearFold_wf cfg _ jar hwf
    · intro sk hsk
      exact clearFold_absent cfg _ jar hk hs hsk

/-- C5 witness: a null-key event leaves a one-cookie jar unchanged, and a
same-tab clear of localStorage deletes the sync cookie of its key. -/
theorem clear_asymmetry_witness :
    handleStorageEvent defaultConfig [("sds_sync_a", "x")]
      { key := none, oldValue := none, newValue := none,
        storageArea := StorageId.localId } = [("sds_sync_a", "x")] ∧
    readFromCookie defaultConfig
      (storageClear defaultConfig
        { localStore := [("a", "x")], sessionStore := [] }
        [("sds_sync_a", "x")] StorageId.localId).2 "a" = none := by
  have h := clear_asymmetry defaultConfig [("sds_sync_a", "x")]
    { localStore := [("a", "x")], sessionStore := [] }
    StorageId.localId none none (by decide)
  exact ⟨h.1, h.2 (by decide) "a" (by decide) (by decide)⟩


/-! ## Store lemmas (JS-object upsert semantics) -/

theorem storeGetItem_map_update_ne (s : Store) {k1 k : String} (h : k1 ≠ k)
    (v : String) :
    storeGetItem (s.map fun e => if e.1 == k1 then (k1, v) else e) k =
      storeGetItem s k := by
  induction s with
  | nil => rfl
  | cons e s ih =>
    rw [List.map_cons]
    by_cases he : e.1 = k1
    · rw [if_pos (by simp [he])]
      rw [storeGetItem, List.find?_cons_of_neg _ (by simp [h]),
        storeGetItem, List.find?_cons_of_neg _ (by simp [he, h])]
      simpa [storeGetItem] using ih
    · rw [if_neg (by simp [he])]
      by_cases hek : e.1 = k
      · rw [storeGetItem, List.find?_cons_of_pos _ (by simp [hek]),
          storeGetItem, List.find?_cons_of_pos _ (by simp [hek])]
      · rw [storeGetItem, List.find?_cons_of_neg _ (by simp [hek]),
          storeGetItem, List.find?_cons_of_neg _ (by simp [hek])]
        simpa [storeGetItem] using ih

theorem storeGetItem_append_single_ne (s : Store) {k1 k : String} (h : k1 ≠ k)
    (v : String) :
    storeGetItem (s ++ [(k1, v)]) k = storeGetItem s k := by
  induction s with
  | nil =>
    rw [List.nil_append, storeGetItem, List.find?_cons_of_neg _ (by simp [h])]
    rfl
  | cons e s ih =>
    rw [List.cons_append]
    by_cases hek : e.1 = k
    · rw [storeGetItem, List.find?_cons_of_pos _ (by simp [hek]),
        storeGetItem, List.find?_cons_of_pos _ (by simp [hek])]
    · rw [storeGetItem, List.find?_cons_of_neg _ (by simp [hek]),
        storeGetItem, List.find?_cons_of_neg _ (by simp [hek])]
      simpa [storeGetItem] using ih

theorem storeGetItem_objSet_ne (s : Store) {k1 k : String} (h : k1 ≠ k)
    (v : String) :
    storeGetItem (objSet s k1 v) k = storeGetItem s k := by
  rw [objSet]
  split
  · exact storeGetItem_map_update_ne s h v
  · exact storeGetItem_append_single_ne s h v

theorem storeGetItem_objSet_self (s : Store) (k v : String) :
    storeGetItem (objSet s k v) k = some v := by
  induction s with
  | nil => simp [objSet, storeGetItem]
  | cons e s ih =>
    by_cases he : e.1 = k
    · rw [objSet, if_pos (by simp [List.any_cons, he]), List.map_cons,
        if_pos (by simp [he]), storeGetItem,
        List.find?_cons_of_pos _ (by simp)]
      rfl
    · by_cases hany : s.any (fun x => x.1 == k) = true
      · rw [objSet, if_pos (by simp [List.any_cons, hany]), List.map_cons,
          if_neg (by simp [he]), storeGetItem,
          List.find?_cons_of_neg _ (by simp [he])]
        have h2 := ih
        rw [objSet, if_pos hany] at h2
        simpa [storeGetItem] using h2
      · rw [objSet, if_neg (by simp [List.any_cons, he, hany]),
          List.cons_append, storeGetItem,
          List.find?_cons_of_neg _ (by simp [he])]
        have h2 := ih
        rw [objSet, if_neg hany] at h2
        simpa [storeGetItem] using h2

/-! ## Per-entry and per-backend replay lemmas -/

theorem syncEntry_not_synced (cfg : Config) (name : String) (st : PassState)
    (e : String × String) (h : shouldSync cfg e.1 = false) :
    syncEntry cfg name st e = st := by
  rw [syncEntry, if_neg (by simp [h])]

theorem syncEntry_other_key (cfg : Config) (name : String) (st : PassState)
    (e : String × String) (k : String) (h : e.1 ≠ k) :
    storeGetItem (syncEntry cfg name st e).store k = storeGetItem st.store k ∧
    ∀ ov : Bool, (SyncedRecord.mk k name ov ∈ (syncEntry cfg name st e).syncedKeys ↔
      SyncedRecord.mk k name ov ∈ st.syncedKeys) := by
  rw [syncEntry]
  split
  · dsimp only
    split
    · refine ⟨storeGetItem_objSet_ne st.store h e.2, fun ov => ?_⟩
      simp only [List.mem_append, List.mem_singleton, SyncedRecord.mk.injEq]
      constructor
      · rintro (hm | ⟨hk, -, -⟩)
        · exact hm
        · exact absurd hk.symm h
      · intro hm
        exact Or.inl hm
    · split
      · exact ⟨rfl, fun ov => Iff.rfl⟩
      · exact ⟨rfl, fun ov => Iff.rfl⟩
  · exact ⟨rfl, fun ov => Iff.rfl⟩

theorem syncFold_other_keys (cfg : Config) (name : String)
    (entries : List (String × String)) (st : PassState) (k : String)
    (h : ∀ e ∈ entries, e.1 ≠ k) :
    storeGetItem ((entries.foldl (syncEntry cfg name) st).store) k =
      storeGetItem st.store k ∧
    ∀ ov : Bool,
      (SyncedRecord.mk k name ov ∈
          (entries.foldl (syncEntry cfg name) st).syncedKeys ↔
        SyncedRecord.mk k name ov ∈ st.syncedKeys) := by
  induction entries generalizing st with
  | nil => exact ⟨rfl, fun ov => Iff.rfl⟩
  | cons e rest ih =>
    rw [List.foldl_cons]
    have hstep := syncEntry_other_key cfg name st e k
      (h e (List.mem_cons_self _ _))
    have hrest := ih (syncEntry cfg name st e)
      (fun e2 he2 => h e2 (List.mem_cons_of_mem _ he2))
    exact ⟨hrest.1.trans hstep.1,
      fun ov => (hrest.2 ov).trans (hstep.2 ov)⟩

theorem syncEntry_key (cfg : Config) (name : String) (st : PassState)
    (k v : String) (hs : shouldSync cfg k = true) :
    storeGetItem (syncEntry cfg name st (k, v)).store k =
      (if ((cfg.overwriteExisting || (storeGetItem st.store k).isNone) &&
          v != "") = true then some v else storeGetItem st.store k) ∧
    ((∃ ov, SyncedRecord.mk k name ov ∈ (syncEntry cfg name st (k, v)).syncedKeys) ↔
      ((∃ ov, SyncedRecord.mk k name ov ∈ st.syncedKeys) ∨
        ((cfg.overwriteExisting || (storeGetItem st.store k).isNone) &&
          v != "") = true)) := by
  rw [syncEntry, if_pos hs]
  dsimp only
  by_cases hw : ((cfg.overwriteExisting || (storeGetItem st.store k).isNone) &&
      v != "") = true
  · rw [if_pos hw, if_pos hw]
    dsimp only
    refine ⟨storeGetItem_objSet_self st.store k v, ?_⟩
    constructor
    · intro _
      exact Or.inr hw
    · intro _
      exact ⟨(storeGetItem st.store k).isSome, by simp⟩
  · rw [if_neg hw, if_neg hw]
    split
    · exact ⟨rfl, by simp [hw]⟩
    · exact ⟨rfl, by simp [hw]⟩

theorem syncFold_spec (cfg : Config) (name : String)
    (entries : List (String × String))
    (hnodup : (entries.map Prod.fst).Nodup) (st : PassState)
    {k v : String} (hmem : (k, v) ∈ entries) (hs : shouldSync cfg k = true) :
    storeGetItem ((entries.foldl (syncEntry cfg name) st).store) k =
      (if ((cfg.overwriteExisting || (storeGetItem st.store k).isNone) &&
          v != "") = true then some v else storeGetItem st.store k) ∧
    ((∃ ov, SyncedRecord.mk k name ov ∈
        (entries.foldl (syncEntry cfg name) st).syncedKeys) ↔
      ((∃ ov, SyncedRecord.mk k name ov ∈ st.syncedKeys) ∨
        ((cfg.overwriteExisting || (storeGetItem st.store k).isNone) &&
          v != "") = true)) := by
  induction entries generalizing st with
  | nil => cases hmem
  | cons e rest ih =>
    rw [List.foldl_cons]
    rcases List.mem_cons.mp hmem with rfl | hmem2
    · -- this entry is (k, v); the rest never touches key k
      have hrestk : ∀ e2 ∈ rest, e2.1 ≠ k := by
        intro e2 he2 hk2
        have : k ∈ rest.map Prod.fst := hk2 ▸ List.mem_map_of_mem Prod.fst he2
        simp only [List.map_cons, List.nodup_cons] at hnodup
        exact hnodup.1 this
      have hstep := syncEntry_key cfg name st k v hs
      have hrest := syncFold_other_keys cfg name rest
        (syncEntry cfg name st (k, v)) k hrestk
      refine ⟨hrest.1.trans hstep.1, ?_⟩
      constructor
      · rintro ⟨ov, hov⟩
        exact hstep.2.mp ⟨ov, (hrest.2 ov).mp hov⟩
      · intro hcase
        obtain ⟨ov, hov⟩ := hstep.2.mpr hcase
        exact ⟨ov, (hrest.2 ov).mpr hov⟩
    · -- (k, v) lies in the tail; this entry has another key
      have hne : e.1 ≠ k := by
        intro hk2
        have : k ∈ rest.map Prod.fst :=
          List.mem_map_of_mem Prod.fst hmem2
        simp only [List.map_cons, List.nodup_cons] at hnodup
        exact hnodup.1 (hk2 ▸ this)
      have hstep := syncEntry_other_key cfg name st e k hne
      have hrest := ih (by simpa [List.map_cons, List.nodup_cons] using
          (by simp only [List.map_cons, List.nodup_cons] at hnodup
              exact hnodup.2))
        (syncEntry cfg name st e) hmem2
      rw [hstep.1] at hrest
      refine ⟨hrest.1, ?_⟩
      constructor
      · rintro ⟨ov, hov⟩
        rcases hrest.2.mp ⟨ov, hov⟩ with ⟨ov2, hov2⟩ | hc
        · exact Or.inl ⟨ov2, (hstep.2 ov2).mp hov2⟩
        · exact Or.inr hc
      · intro hcase
        rcases hcase with ⟨ov, hov⟩ | hc
        · obtain ⟨ov2, hov2⟩ := hrest.2.mpr (Or.inl ⟨ov, (hstep.2 ov).mpr hov⟩)
          exact ⟨ov2, hov2⟩
        · obtain ⟨ov2, hov2⟩ := hrest.2.mpr (Or.inr hc)
          exact ⟨ov2, hov2⟩

theorem syncEntry_records (cfg : Config) (name : String) (st : PassState)
    (e : String × String) :
    ∀ r ∈ (syncEntry cfg name st e).syncedKeys,
      r ∈ st.syncedKeys ∨ r.storageType = name := by
  intro r hr
  rw [syncEntry] at hr
  split at hr
  · dsimp only at hr
    split at hr
    · simp only [List.mem_append, List.mem_singleton] at hr
      rcases hr with hm | rfl
      · exact Or.inl hm
      · exact Or.inr rfl
    · split at hr
      · exact Or.inl hr
      · exact Or.inl hr
  · exact Or.inl hr

theorem syncFold_records (cfg : Config) (name : String)
    (entries : List (String × String)) (st : PassState) :
    ∀ r ∈ (entries.foldl (syncEntry cfg name) st).syncedKeys,
      r ∈ st.syncedKeys ∨ r.storageType = name := by
  induction entries generalizing st with
  | nil => exact fun r hr => Or.inl hr
  | cons e rest ih =>
    intro r hr
    rw [List.foldl_cons] at hr
    rcases ih (syncEntry cfg name st e) r hr with hm | hn
    · exact (syncEntry_records cfg name st e r hm).imp_right id
    · exact Or.inr hn

theorem syncEntry_count (cfg : Config) (name : String) (st : PassState)
    (e : String × String) :
    (syncEntry cfg name st e).syncedKeys.length + st.syncCount =
      st.syncedKeys.length + (syncEntry cfg name st e).syncCount := by
  rw [syncEntry]
  split
  · dsimp only
    split
    · dsimp only
      simp only [List.length_append, List.length_singleton]
      omega
    · split
      · dsimp only
      · omega
  · omega

theorem syncFold_count (cfg : Config) (name : String)
    (entries : List (String × String)) (st : PassState) :
    (entries.foldl (syncEntry cfg name) st).syncedKeys.length + st.syncCount =
      st.syncedKeys.length +
        (entries.foldl (syncEntry cfg name) st).syncCount := by
  induction entries generalizing st with
  | nil => rfl
  | cons e rest ih =>
    rw [List.foldl_cons]
    have h1 := syncEntry_count cfg name st e
    have h2 := ih (syncEntry cfg name st e)
    omega


/-! ## Backend-selection and snapshot lemmas -/

theorem storages_get_set_self (st : Storages) (sid : StorageId) (s : Store) :
    (st.set sid s).get sid = s := by
  cases sid <;> rfl

theorem storages_get_set_ne (st : Storages) {sid1 sid2 : StorageId}
    (h : sid1 ≠ sid2) (s : Store) :
    (st.set sid1 s).get sid2 = st.get sid2 := by
  cases sid1 <;> cases sid2 <;> first | rfl | exact absurd rfl h

theorem objSet_keys_nodup {m : List (String × String)}
    (h : (m.map Prod.fst).Nodup) (k v : String) :
    ((objSet m k v).map Prod.fst).Nodup := by
  rw [objSet]
  split
  · have heq : ((m.map fun e => if e.1 == k then (k, v) else e).map Prod.fst) =
        m.map Prod.fst := by
      rw [List.map_map]
      apply List.map_congr_left
      intro e _
      by_cases hek : e.1 = k
      · simp [Function.comp, hek]
      · simp [Function.comp, hek]
    rw [heq]
    exact h
  · rename_i hany
    rw [List.map_append]
    simp only [List.map_cons, List.map_nil]
    refine List.Nodup.append h (List.nodup_singleton k) ?_
    intro a ha hb
    simp only [List.mem_singleton] at hb
    subst hb
    apply hany
    obtain ⟨e, he, hfst⟩ := List.mem_map.mp ha
    simp only [List.any_eq_true]
    exact ⟨e, he, by simp [hfst]⟩

theorem collectSyncCookies_nodup (cfg : Config) (segs : List (List Char)) :
    ∀ acc : List (String × String), (acc.map Prod.fst).Nodup →
      ((collectSyncCookies cfg segs acc).map Prod.fst).Nodup := by
  induction segs with
  | nil => exact fun acc hacc => hacc
  | cons seg rest ih =>
    intro acc hacc
    rw [collectSyncCookies]
    rcases hse : splitEq (trimChars seg) with _ | ⟨n, v⟩
    · exact ih acc hacc
    · dsimp only
      split
      · rcases hpd : percentDecode v with _ | dv
        · exact hacc
        · exact ih _ (objSet_keys_nodup hacc _ _)
      · exact ih acc hacc

theorem getAllSyncCookies_nodup (cfg : Config) (jar : Jar) :
    ((getAllSyncCookies cfg jar).map Prod.fst).Nodup :=
  collectSyncCookies_nodup cfg _ [] (by simp)

theorem getStorageObjects_cases (cfg : Config) :
    getStorageObjects cfg = [] ∨ getStorageObjects cfg = [StorageId.localId] ∨
    getStorageObjects cfg = [StorageId.sessionId] ∨
    getStorageObjects cfg = [StorageId.localId, StorageId.sessionId] := by
  rw [getStorageObjects]
  by_cases hA : (cfg.storageType = "localStorage" ∨ cfg.storageType = "both") <;>
    by_cases hB : (cfg.storageType = "sessionStorage" ∨ cfg.storageType = "both") <;>
      simp [hA, hB]

/-! ## Lemmas about one `runBackend` iteration -/

theorem runBackend_stores_other (cfg : Config)
    (data : List (String × String)) (g : GlobalPass) {sid1 sid2 : StorageId}
    (h : sid1 ≠ sid2) :
    (runBackend cfg data g sid1).stores.get sid2 = g.stores.get sid2 := by
  rw [runBackend]
  exact storages_get_set_ne _ h _

theorem runBackend_synced (cfg : Config) (data : List (String × String))
    (g : GlobalPass) (sid : StorageId) :
    ∀ r ∈ (runBackend cfg data g sid).syncedKeys,
      r ∈ g.syncedKeys ∨ r.storageType = getStorageName sid := by
  rw [runBackend]
  exact syncFold_records cfg _ data _

theorem syncEntry_synced_mono (cfg : Config) (name : String) (st : PassState)
    (e : String × String) :
    st.syncedKeys ⊆ (syncEntry cfg name st e).syncedKeys := by
  rw [syncEntry]
  split
  · dsimp only
    split
    · exact List.subset_append_left _ _
    · split
      · exact fun r hr => hr
      · exact fun r hr => hr
  · exact fun r hr => hr

theorem syncFold_synced_mono (cfg : Config) (name : String)
    (entries : List (String × String)) (st : PassState) :
    st.syncedKeys ⊆ (entries.foldl (syncEntry cfg name) st).syncedKeys := by
  induction entries generalizing st with
  | nil => exact fun r hr => hr
  | cons e rest ih =>
    rw [List.foldl_cons]
    exact fun r hr =>
      ih (syncEntry cfg name st e) (syncEntry_synced_mono cfg name st e hr)

theorem runBackend_synced_mono (cfg : Config) (data : List (String × String))
    (g : GlobalPass) (sid : StorageId) :
    g.syncedKeys ⊆ (runBackend cfg data g sid).syncedKeys := by
  rw [runBackend]
  dsimp only
  exact syncFold_synced_mono cfg _ data
    { store := g.stores.get sid, syncCount := 0, syncedKeys := g.syncedKeys,
      skippedKeys := g.skippedKeys }

theorem runBackend_spec (cfg : Config) (data : List (String × String))
    (hnodup : (data.map Prod.fst).Nodup) (g : GlobalPass) (sid : StorageId)
    {k v : String} (hmem : (k, v) ∈ data) (hs : shouldSync cfg k = true) :
    storeGetItem ((runBackend cfg data g sid).stores.get sid) k =
      (if ((cfg.overwriteExisting ||
            (storeGetItem (g.stores.get sid) k).isNone) && v != "") = true
       then some v else storeGetItem (g.stores.get sid) k) ∧
    ((∃ ov, SyncedRecord.mk k (getStorageName sid) ov ∈
        (runBackend cfg data g sid).syncedKeys) ↔
      ((∃ ov, SyncedRecord.mk k (getStorageName sid) ov ∈ g.syncedKeys) ∨
        ((cfg.overwriteExisting ||
          (storeGetItem (g.stores.get sid) k).isNone) && v != "") = true)) := by
  rw [runBackend]
  dsimp only
  rw [storages_get_set_self]
  exact syncFold_spec cfg (getStorageName sid) data hnodup
    { store := g.stores.get sid, syncCount := 0, syncedKeys := g.syncedKeys,
      skippedKeys := g.skippedKeys } hmem hs

theorem runBackend_count (cfg : Config) (data : List (String × String))
    (g : GlobalPass) (sid : StorageId)
    (hinv : g.syncedKeys.length = g.totalSyncCount) :
    (runBackend cfg data g sid).syncedKeys.length =
      (runBackend cfg data g sid).totalSyncCount := by
  rw [runBackend]
  dsimp only
  have h := syncFold_count cfg (getStorageName sid) data
    { store := g.stores.get sid, syncCount := 0, syncedKeys := g.syncedKeys,
      skippedKeys := g.skippedKeys }
  dsimp only at h
  omega

theorem foldStorages_count (cfg : Config) (data : List (String × String))
    (sids : List StorageId) :
    ∀ g : GlobalPass, g.syncedKeys.length = g.totalSyncCount →
      (sids.foldl (runBackend cfg data) g).syncedKeys.length =
        (sids.foldl (runBackend cfg data) g).totalSyncCount := by
  induction sids with
  | nil => exact fun g h => h
  | cons s rest ih =>
    intro g h
    rw [List.foldl_cons]
    exact ih _ (runBackend_count cfg data g s h)

/-- C10: in every report emitted by `syncCookiesToStorage`, `syncedCount`
equals the length of `syncedKeys` (each successful write increments the
counter and appends exactly one record), and `totalCookies` is the size of
the prefixed-cookie snapshot taken at the start of the pass. -/
theorem syncReport_counts (cfg : Config) (jar : Jar) (st : Storages) :
    (syncCookiesToStorage cfg jar st).2.syncedCount =
      (syncCookiesToStorage cfg jar st).2.syncedKeys.length ∧
    (syncCookiesToStorage cfg jar st).2.totalCookies =
      (getAllSyncCookies cfg jar).length := by
  rw [syncCookiesToStorage]
  dsimp only
  refine ⟨?_, rfl⟩
  exact (foldStorages_count cfg (getAllSyncCookies cfg jar)
    (getStorageObjects cfg)
    { stores := st, totalSyncCount := 0, syncedKeys := [], skippedKeys := [] }
    rfl).symm

/-- C2: during a replay pass, for every target backend and every
prefixed-cookie entry whose key the matcher accepts, the entry is written
into that backend — a synced record for (key, backend) appears in the
report, and the backend holds the cookie value — if and only if
(`overwriteExisting` is true or the backend had no value for the key) and
the cookie value is non-empty; otherwise the backend keeps its old value.
In particular an empty cookie value is never written, even with
`overwriteExisting` enabled. -/
theorem syncCookiesToStorage_write_iff (cfg : Config) (jar : Jar)
    (st : Storages) (sid : StorageId) (hsid : sid ∈ getStorageObjects cfg)
    {k v : String} (hmem : (k, v) ∈ getAllSyncCookies cfg jar)
    (hs : shouldSync cfg k = true) :
    ((∃ ov, SyncedRecord.mk k (getStorageName sid) ov ∈
        (syncCookiesToStorage cfg jar st).2.syncedKeys) ↔
      ((cfg.overwriteExisting = true ∨ storeGetItem (st.get sid) k = none) ∧
        v ≠ "")) ∧
    (storeGetItem ((syncCookiesToStorage cfg jar st).1.get sid) k =
      if ((cfg.overwriteExisting = true ∨ storeGetItem (st.get sid) k = none) ∧
          v ≠ "")
      then some v else storeGetItem (st.get sid) k) := by
  have hnodup := getAllSyncCookies_nodup cfg jar
  have hcond : (((cfg.overwriteExisting ||
        (storeGetItem (st.get sid) k).isNone) && v != "") = true) ↔
      ((cfg.overwriteExisting = true ∨ storeGetItem (st.get sid) k = none) ∧
        v ≠ "") := by
    simp [Bool.and_eq_true, Bool.or_eq_true, Option.isNone_iff_eq_none]
  rw [syncCookiesToStorage]
  dsimp only
  rcases getStorageObjects_cases cfg with hc | hc | hc | hc
  · rw [hc] at hsid
    cases hsid
  · rw [hc] at hsid ⊢
    obtain rfl : sid = StorageId.localId := by simpa using hsid
    rw [List.foldl_cons, List.foldl_nil]
    have h := runBackend_spec cfg (getAllSyncCookies cfg jar) hnodup
      { stores := st, totalSyncCount := 0, syncedKeys := [], skippedKeys := [] }
      StorageId.localId hmem hs
    refine ⟨h.2.trans (by rw [hcond]; simp), ?_⟩
    rw [h.1]
    exact if_congr hcond rfl rfl
  · rw [hc] at hsid ⊢
    obtain rfl : sid = StorageId.sessionId := by simpa using hsid
    rw [List.foldl_cons, List.foldl_nil]
    have h := runBackend_spec cfg (getAllSyncCookies cfg jar) hnodup
      { stores := st, totalSyncCount := 0, syncedKeys := [], skippedKeys := [] }
      StorageId.sessionId hmem hs
    refine ⟨h.2.trans (by rw [hcond]; simp), ?_⟩
    rw [h.1]
    exact if_congr hcond rfl rfl
  · rw [hc] at hsid ⊢
    rw [List.foldl_cons, List.foldl_cons, List.foldl_nil]
    rcases (by simpa using hsid :
        sid = StorageId.localId ∨ sid = StorageId.sessionId) with rfl | rfl
    · have h1 := runBackend_spec cfg (getAllSyncCookies cfg jar) hnodup
        { stores := st, totalSyncCount := 0, syncedKeys := [], skippedKeys := [] }
        StorageId.localId hmem hs
      have hst : (runBackend cfg (getAllSyncCookies cfg jar)
          (runBackend cfg (getAllSyncCookies cfg jar)
            { stores := st, totalSyncCount := 0, syncedKeys := [],
              skippedKeys := [] } StorageId.localId)
          StorageId.sessionId).stores.get StorageId.localId =
          (runBackend cfg (getAllSyncCookies cfg jar)
            { stores := st, totalSyncCount := 0, syncedKeys := [],
              skippedKeys := [] } StorageId.localId).stores.get
            StorageId.localId :=
        runBackend_stores_other cfg _ _ (by decide)
      have hrec : ∀ ov : Bool,
          (SyncedRecord.mk k (getStorageName StorageId.localId) ov ∈
            (runBackend cfg (getAllSyncCookies cfg jar)
              (runBackend cfg (getAllSyncCookies cfg jar)
                { stores := st, totalSyncCount := 0, syncedKeys := [],
                  skippedKeys := [] } StorageId.localId)
              StorageId.sessionId).syncedKeys ↔
          SyncedRecord.mk k (getStorageName StorageId.localId) ov ∈
            (runBackend cfg (getAllSyncCookies cfg jar)
              { stores := st, totalSyncCount := 0, syncedKeys := [],
                skippedKeys := [] } StorageId.localId).syncedKeys) := by
        intro ov
        constructor
        · intro hm
          rcases runBackend_synced cfg _ _ _ _ hm with hin | hty
          · exact hin
          · exfalso
            simp only [getStorageName] at hty
            exact absurd hty (by decide)
        · intro hm
          exact runBackend_synced_mono cfg _ _ _ hm
      constructor
      · refine Iff.trans ?_ (h1.2.trans (by rw [hcond]; simp))
        constructor
        · rintro ⟨ov, hov⟩
          exact ⟨ov, (hrec ov).mp hov⟩
        · rintro ⟨ov, hov⟩
          exact ⟨ov, (hrec ov).mpr hov⟩
      · rw [hst, h1.1]
        exact if_congr hcond rfl rfl
    · have hpre : (runBackend cfg (getAllSyncCookies cfg jar)
          { stores := st, totalSyncCount := 0, syncedKeys := [],
            skippedKeys := [] } StorageId.localId).stores.get
          StorageId.sessionId = st.get StorageId.sessionId :=
        runBackend_stores_other cfg _ _ (by decide)
      have h2 := runBackend_spec cfg (getAllSyncCookies cfg jar) hnodup
        (runBackend cfg (getAllSyncCookies cfg jar)
          { stores := st, totalSyncCount := 0, syncedKeys := [],
            skippedKeys := [] } StorageId.localId)
        StorageId.sessionId hmem hs
      rw [hpre] at h2
      have hno : (∃ ov, SyncedRecord.mk k (getStorageName StorageId.sessionId)
          ov ∈ (runBackend cfg (getAllSyncCookies cfg jar)
            { stores := st, totalSyncCount := 0, syncedKeys := [],
              skippedKeys := [] } StorageId.localId).syncedKeys) ↔ False := by
        simp only [iff_false, not_exists]
        intro ov hm
        rcases runBackend_synced cfg _ _ _ _ hm with hin | hty
        · simp at hin
        · simp only [getStorageName] at hty
          exact absurd hty (by decide)
      refine ⟨h2.2.trans ?_, ?_⟩
      · rw [hcond, hno]
        simp
      · rw [h2.1]
        exact if_congr hcond rfl rfl

/-- C2 witness: with overwrite enabled, a non-empty cookie value is
written over an existing key, while an empty cookie value is not written
even though overwrite is enabled. -/
theorem syncCookiesToStorage_write_iff_witness :
    (∃ ov, SyncedRecord.mk "b" (getStorageName StorageId.localId) ov ∈
      (syncCookiesToStorage { defaultConfig with overwriteExisting := true }
        [("sds_sync_a", ""), ("sds_sync_b", "v")]
        { localStore := [("a", "old")], sessionStore := [] }).2.syncedKeys) ∧
    (¬ ∃ ov, SyncedRecord.mk "a" (getStorageName StorageId.localId) ov ∈
      (syncCookiesToStorage { defaultConfig with overwriteExisting := true }
        [("sds_sync_a", ""), ("sds_sync_b", "v")]
        { localStore := [("a", "old")], sessionStore := [] }).2.syncedKeys) := by
  constructor
  · exact (@syncCookiesToStorage_write_iff
      { defaultConfig with overwriteExisting := true }
      [("sds_sync_a", ""), ("sds_sync_b", "v")]
      { localStore := [("a", "old")], sessionStore := [] }
      StorageId.localId (by decide) "b" "v" (by decide) (by decide)).1.mpr
      ⟨Or.inl rfl, by decide⟩
  · intro hx
    have h := (@syncCookiesToStorage_write_iff
      { defaultConfig with overwriteExisting := true }
      [("sds_sync_a", ""), ("sds_sync_b", "v")]
      { localStore := [("a", "old")], sessionStore := [] }
      StorageId.localId (by decide) "a" "" (by decide) (by decide)).1.mp hx
    exact h.2 rfl

end StorageSync
